import Mathlib

/-!
Shallow embedding of the Groove Generator synchronized multi-track loop
playback engine (the `GrooveApp` React component: `calculateOptimalDuration`,
`loadAudioBuffer`, `playTrackWebAudio`, `stopTrackWebAudio`,
`toggleMuteWebAudio`, `addTrack`, `playAll`, `stopAll`, `toggleMute`,
`removeTrack`, `changeBPM`, and the per-track HTML5 `<audio>` fallback).

Numbers: the source computes with JS doubles.  The embedding uses exact
rationals; for `calculateOptimalDuration` the double computation was checked
to agree bit-for-bit with the rational one on every integer bpm in 60..200
and on the concrete invalid inputs used below, so ℚ is a faithful model on
the domains the theorems quantify over.

JS `Map`s keyed by track id (`audioBuffersRef`, `sourceNodesRef`,
`gainNodesRef`, `audioRefs`, `loopHandlers`) are modelled as association
lists with JS `Map` get/set/delete semantics (`mget`/`mset`/`mdel`; `mset`
updates an existing key in place and appends a fresh key, exactly like
`Map.set`).  `AudioBufferSourceNode`s are never destroyed in the model:
`nodes` records every node ever created together with its `playing` flag, and
`sources` maps a track id to the index of its current node, so "stop the
previous node before starting a new one" is observable.

Asynchrony: the source is single-threaded JS; every `await` is a suspension
point.  A call to an engine operation is modelled as a state transformer that
also emits the ordered trace of observable events (`Ev`): suspension points,
decode/readiness settlements, voice starts, per-track failure reports and
generation requests.  Decode and readiness outcomes of the environment
(network fetch + `decodeAudioData`, `canplaythrough` vs the 5 s timeout) are
supplied as oracles, so "the decode settles with success/failure" is a
parameter, never stubbed.
-/

/-- JS `Math.ceil` on an exact rational, written through the kernel-computable
`Rat.floor` (`Math.ceil x = -Math.floor (-x)`). -/
def jsCeil (x : ℚ) : ℤ := -(Rat.floor (-x))

/-- JS `Math.round` on an exact rational: round half towards positive
infinity, which is JS semantics (`Math.round (-2.5) = -2`). -/
def jsRound (x : ℚ) : ℤ := Rat.floor (x + 1/2)

/-- `calculateOptimalDuration` (source lines 852-868): seconds per beat is
`60 / bpm`, seconds per bar multiplies by the `beats` component of the time
signature (the default and only used value is 4/4), `minBars` is the least
number of bars reaching 10 seconds via `Math.ceil`, and the result is rounded
to millisecond precision with `Math.round (x * 1000) / 1000`.  The source
never validates `bpm` and never throws. -/
def calculateOptimalDuration (bpm : ℚ) : ℚ :=
  let secondsPerBeat : ℚ := 60 / bpm
  let secondsPerBar : ℚ := secondsPerBeat * 4
  let minBars : ℤ := jsCeil (10 / secondsPerBar)
  (jsRound ((minBars : ℚ) * secondsPerBar * 1000) : ℚ) / 1000

/-- `MAX_LOOP_DURATION` from `playTrackWebAudio`. -/
def MAX_LOOP_DURATION : ℚ := 10

/-- `MIN_LOOP_DURATION` from `playTrackWebAudio` (only used for logging in
the source; kept for completeness). -/
def MIN_LOOP_DURATION : ℚ := 8

/-- JS `Map.get`: first entry with the given key, if any. -/
def mget {α : Type} : List (Int × α) → Int → Option α
  | [], _ => none
  | p :: ps, k => if p.1 = k then some p.2 else mget ps k

/-- JS `Map.delete`: drop every entry with the given key. -/
def mdel {α : Type} : List (Int × α) → Int → List (Int × α)
  | [], _ => []
  | p :: ps, k => if p.1 = k then mdel ps k else p :: mdel ps k

/-- JS `Map.set`: update an existing key in place, append a fresh key. -/
def mset {α : Type} : List (Int × α) → Int → α → List (Int × α)
  | [], k, v => [(k, v)]
  | p :: ps, k, v => if p.1 = k then (k, v) :: ps else p :: mset ps k v

/-- JS `Map.delete` on the `loopHandlers` id set. -/
def hdel (l : List Int) (k : Int) : List Int := l.filter (fun x => x != k)

/-- The `Track` interface of the source (`name`, `id`, `url`, `muted?`;
a missing `muted` behaves as `false`). -/
structure Track where
  name : String
  id : Int
  url : Option String
  muted : Bool
deriving DecidableEq, Repr

/-- One `AudioBufferSourceNode` as configured by `playTrackWebAudio`,
together with whether it is currently playing.  A Web Audio node with
`loopEnd = 0` (the default, never assigned by the source for short clips)
loops over the whole buffer. -/
structure SourceNode where
  track : Int
  bufferDuration : ℚ
  loop : Bool
  loopStart : ℚ
  loopEnd : ℚ
  playing : Bool
deriving DecidableEq, Repr

/-- Web Audio semantics of the loop region end: `loopEnd = 0` (the default)
means the buffer's natural end. -/
def SourceNode.effectiveLoopEnd (n : SourceNode) : ℚ :=
  if n.loopEnd = 0 then n.bufferDuration else n.loopEnd

/-- Out-of-range default for indexing `nodes`; not a playing node. -/
def defaultSourceNode : SourceNode :=
  { track := 0, bufferDuration := 0, loop := false, loopStart := 0,
    loopEnd := 0, playing := false }

/-- One fallback HTML5 `<audio>` element: the state the engine reads and
writes (`paused`, `currentTime`, `muted`). -/
structure HtmlAudio where
  paused : Bool
  currentTime : ℚ
  muted : Bool
deriving DecidableEq, Repr

/-- The in-memory state of the component: React state (`tracks`, `history`,
`currentBPM`, `isPlayingAll`, `webAudioSupported`), the shared
`AudioContext` (its suspended flag; the context exists exactly when
`webAudioSupported` is set, which is how the source initialises them), and
the refs `audioBuffersRef` (decoded buffers, recorded by duration),
`sourceNodesRef`, `gainNodesRef` (gain values), `audioRefs` and
`loopHandlers`. -/
structure EngineState where
  tracks : List Track
  history : List String
  currentBPM : ℚ
  isPlayingAll : Bool
  webAudioSupported : Bool
  ctxSuspended : Bool
  buffers : List (Int × ℚ)
  sources : List (Int × Nat)
  gains : List (Int × ℚ)
  nodes : List SourceNode
  htmlAudios : List (Int × HtmlAudio)
  loopHandlers : List Int
deriving DecidableEq, Repr

/-- Observable events of one engine operation, in program order. -/
inductive Ev where
  | noTracksAlert
  | awaitPoint
  | decodeSettled (trackId : Int) (ok : Bool)
  | started (trackId : Int)
  | skippedNoBuffer (trackId : Int)
  | genRequest (name : String)
deriving DecidableEq, Repr

def Ev.isStarted : Ev → Bool
  | .started _ => true
  | _ => false

def Ev.isDecodeSettled : Ev → Bool
  | .decodeSettled _ _ => true
  | _ => false

def Ev.isAwaitPoint : Ev → Bool
  | .awaitPoint => true
  | _ => false

def Ev.isSkipped : Ev → Bool
  | .skippedNoBuffer _ => true
  | _ => false

/-- Default event for out-of-range trace indexing (not a start, not a
settlement, not a suspension point). -/
def defaultEv : Ev := Ev.noTracksAlert

/-- `source.stop()` on the node at index `k` of the node log. -/
def stopNodeAt (ns : List SourceNode) (k : Nat) : List SourceNode :=
  match ns.get? k with
  | some n => ns.set k { n with playing := false }
  | none => ns

/-- `playTrackWebAudio` (source lines 899-944): bail out without the Web
Audio graph; bail out if no decoded buffer; stop and drop an existing source
node for the track; create a looping node, clamping the loop region to
`[0, MAX_LOOP_DURATION]` exactly when the buffer is longer than
`MAX_LOOP_DURATION` (otherwise `loopStart`/`loopEnd` stay at their default
0); create a gain node at 0 (muted) or 1; store both refs; start the node. -/
def playTrackWebAudio (trackId : Int) (muted : Bool) (s : EngineState) :
    EngineState × List Ev :=
  if ¬ s.webAudioSupported then (s, [])
  else
    match mget s.buffers trackId with
    | none => (s, [])
    | some dur =>
      let s1 :=
        match mget s.sources trackId with
        | some k =>
          { s with nodes := stopNodeAt s.nodes k,
                   sources := mdel s.sources trackId }
        | none => s
      let node : SourceNode :=
        { track := trackId, bufferDuration := dur, loop := true,
          loopStart := 0,
          loopEnd := if dur > MAX_LOOP_DURATION then MAX_LOOP_DURATION else 0,
          playing := true }
      ({ s1 with nodes := s1.nodes ++ [node],
                 sources := mset s1.sources trackId s1.nodes.length,
                 gains := mset s1.gains trackId (if muted then 0 else 1) },
       [Ev.started trackId])

/-- `stopTrackWebAudio` (source lines 947-955): if a source node exists for
the track, stop it and delete both the source and gain refs. -/
def stopTrackWebAudio (trackId : Int) (s : EngineState) : EngineState :=
  match mget s.sources trackId with
  | none => s
  | some k =>
    { s with nodes := stopNodeAt s.nodes k,
             sources := mdel s.sources trackId,
             gains := mdel s.gains trackId }

/-- `toggleMuteWebAudio` (source lines 958-963): if a gain node exists, set
its value to 0 or 1. -/
def toggleMuteWebAudio (trackId : Int) (muted : Bool) (s : EngineState) :
    EngineState :=
  match mget s.gains trackId with
  | none => s
  | some _ => { s with gains := mset s.gains trackId (if muted then 0 else 1) }

/-- `loadAudioBuffer` (source lines 878-896): bail out without the Web Audio
graph; otherwise await fetch + decode (one suspension point in the trace) and
either cache the decoded buffer or catch the error, caching nothing.  The
environment's outcome is the `dec` argument: `some d` is a successful decode
of duration `d`, `none` is a fetch/decode failure. -/
def loadAudioBuffer (trackId : Int) (dec : Option ℚ) (s : EngineState) :
    EngineState × List Ev :=
  if ¬ s.webAudioSupported then (s, [])
  else
    match dec with
    | some d =>
      ({ s with buffers := mset s.buffers trackId d },
       [Ev.awaitPoint, Ev.decodeSettled trackId true])
    | none => (s, [Ev.awaitPoint, Ev.decodeSettled trackId false])

/-- The first loop of `playAll`: pause and rewind the HTML5 element of every
track that has a url and a mounted element. -/
def pauseHtmlStep (s : EngineState) (t : Track) : EngineState :=
  match mget s.htmlAudios t.id, t.url with
  | some el, some _ =>
    let el1 := { el with paused := true, currentTime := 0 }
    { s with htmlAudios := mset s.htmlAudios t.id el1 }
  | _, _ => s

/-- The buffer-loading loop of `playAll`: skip tracks whose buffer is already
cached, otherwise await `loadAudioBuffer`. -/
def decodeStep (dec : Int → Option ℚ) (acc : EngineState × List Ev)
    (t : Track) : EngineState × List Ev :=
  if (mget acc.1.buffers t.id).isSome then acc
  else
    match t.url with
    | some _ =>
      let r := loadAudioBuffer t.id (dec t.id) acc.1
      (r.1, acc.2 ++ r.2)
    | none => acc

def decodePhase (dec : Int → Option ℚ) (ts : List Track) (s : EngineState) :
    EngineState × List Ev :=
  ts.foldl (decodeStep dec) (s, [])

/-- The start loop of `playAll` (Web Audio path): start every track whose
buffer is loaded, warn (one per-track failure report) about the rest. -/
def startStep (acc : EngineState × List Ev) (t : Track) :
    EngineState × List Ev :=
  if t.url.isSome && (mget acc.1.buffers t.id).isSome then
    let r := playTrackWebAudio t.id t.muted acc.1
    (r.1, acc.2 ++ r.2)
  else (acc.1, acc.2 ++ [Ev.skippedNoBuffer t.id])

def startPhase (ts : List Track) (s : EngineState) : EngineState × List Ev :=
  ts.foldl startStep (s, [])

/-- Fallback preparation in `playAll`: rewind each element and copy the
track's mute flag onto it. -/
def fallbackPrepareStep (s : EngineState) (t : Track) : EngineState :=
  match mget s.htmlAudios t.id, t.url with
  | some el, some _ =>
    let el1 := { el with currentTime := 0, muted := t.muted }
    { s with htmlAudios := mset s.htmlAudios t.id el1 }
  | _, _ => s

/-- `audio.play()` in the fallback path. -/
def fallbackPlayStep (s : EngineState) (t : Track) : EngineState :=
  match mget s.htmlAudios t.id with
  | some el =>
    let el1 := { el with paused := false }
    { s with htmlAudios := mset s.htmlAudios t.id el1 }
  | none => s

/-- `playAll` (source lines 1109-1237).  `dec` is the fetch+decode oracle for
buffers missing from the cache; `ready` is the fallback readiness oracle
(`true`: `canplaythrough` fires / `readyState >= 4`; `false`: the 5 s timeout
rejects first).  The trace records: the no-playable-tracks alert; the
`AudioContext.resume` suspension point; per-track decode settlements around
their suspension point; then — synchronously, with no suspension point in
between — one `started` per successful track interleaved only with
`skippedNoBuffer` failure reports; in the fallback path the single readiness
barrier (`Promise.all`), its settlements, the back-to-back `play()` calls and
the final await of the play promises. -/
def playAll (dec : Int → Option ℚ) (ready : Int → Bool) (s : EngineState) :
    EngineState × List Ev :=
  let playableTracks := s.tracks.filter (fun t => t.url.isSome)
  if playableTracks.isEmpty then (s, [Ev.noTracksAlert])
  else
    let s1 := s.tracks.foldl pauseHtmlStep s
    let resumed :=
      if s1.webAudioSupported && s1.ctxSuspended then
        ({ s1 with ctxSuspended := false }, [Ev.awaitPoint])
      else (s1, ([] : List Ev))
    let s2 := { resumed.1 with isPlayingAll := true }
    if s2.webAudioSupported then
      let d := decodePhase dec playableTracks s2
      let st := startPhase playableTracks d.1
      (st.1, resumed.2 ++ d.2 ++ st.2)
    else
      let s3 := playableTracks.foldl fallbackPrepareStep s2
      let elems := playableTracks.filter
        (fun t => (mget s3.htmlAudios t.id).isSome && t.url.isSome)
      if elems.isEmpty then (s3, resumed.2)
      else
        let settleEvs :=
          [Ev.awaitPoint] ++ elems.map (fun t => Ev.decodeSettled t.id (ready t.id))
        if elems.all (fun t => ready t.id) then
          let s4 := elems.foldl fallbackPlayStep s3
          (s4, resumed.2 ++ settleEvs ++ elems.map (fun t => Ev.started t.id)
                ++ [Ev.awaitPoint])
        else (s3, resumed.2 ++ settleEvs)

/-- The Web Audio part of `stopAll`: `stopTrackWebAudio` on every track. -/
def stopWebStep (s : EngineState) (t : Track) : EngineState :=
  stopTrackWebAudio t.id s

/-- The HTML5 part of `stopAll`: for every track with a url and a mounted
element, pause, rewind, and remove the restart (`ended`) listener. -/
def stopHtmlStep (s : EngineState) (t : Track) : EngineState :=
  match mget s.htmlAudios t.id, t.url with
  | some el, some _ =>
    let el1 := { el with paused := true, currentTime := 0 }
    { s with htmlAudios := mset s.htmlAudios t.id el1,
             loopHandlers := hdel s.loopHandlers t.id }
  | _, _ => s

/-- `stopAll` (source lines 1239-1272): clear `isPlayingAll`, stop every Web
Audio voice (when the Web Audio graph exists), then stop, rewind and
de-listen every fallback element. -/
def stopAll (s : EngineState) : EngineState :=
  let s1 := { s with isPlayingAll := false }
  let s2 := if s1.webAudioSupported then s1.tracks.foldl stopWebStep s1 else s1
  s2.tracks.foldl stopHtmlStep s2

/-- `toggleMute` (source lines 1274-1288): flip the stored flag (a missing
track reads as unmuted, so the new state is `true`, matching
`!track?.muted`); while playing with Web Audio, retarget only the gain node;
otherwise write the element's own muted flag. -/
def toggleMute (trackId : Int) (s : EngineState) : EngineState :=
  let newMutedState : Bool :=
    ! (match s.tracks.find? (fun t => t.id == trackId) with
       | some t => t.muted
       | none => false)
  let flip := fun (t : Track) =>
    if t.id = trackId then { t with muted := newMutedState } else t
  let s1 := { s with tracks := s.tracks.map flip }
  if s1.isPlayingAll && s1.webAudioSupported then
    toggleMuteWebAudio trackId newMutedState s1
  else
    match mget s1.htmlAudios trackId with
    | some el =>
      let el1 := { el with muted := newMutedState }
      { s1 with htmlAudios := mset s1.htmlAudios trackId el1 }
    | none => s1

/-- `removeTrack` (source lines 1290-1325): if the track exists, stop its Web
Audio voice and evict its decoded buffer; pause/rewind/de-listen its element;
delete the element ref; filter the track out of the list and log to
history. -/
def removeTrack (trackId : Int) (s : EngineState) : EngineState :=
  match s.tracks.find? (fun t => t.id == trackId) with
  | none => s
  | some track =>
    let s1 :=
      if s.webAudioSupported then
        let sw := stopTrackWebAudio trackId s
        { sw with buffers := mdel sw.buffers trackId }
      else s
    let s2 :=
      match mget s1.htmlAudios trackId with
      | some el =>
        let el1 := { el with paused := true, currentTime := 0 }
        { s1 with htmlAudios := mset s1.htmlAudios trackId el1,
                  loopHandlers := hdel s1.loopHandlers trackId }
      | none => s1
    { s2 with htmlAudios := mdel s2.htmlAudios trackId,
              tracks := s2.tracks.filter (fun t => t.id != trackId),
              history := s2.history ++ ["Removed " ++ track.name] }

/-- The display name `style ? style + " " + inst : inst` used by
`addTrack`. -/
def displayNameOf (inst : String) (style : Option String) : String :=
  match style with
  | some st => st ++ " " ++ inst
  | none => inst

/-- The synchronous prefix of `addTrack` (source lines 1066-1078): if a track
with the same display name exists the whole call is skipped; otherwise the
loading track is appended, a history entry pushed, and a generation request
issued to the external service. -/
def addTrackStart (inst : String) (style : Option String) (newId : Int)
    (s : EngineState) : EngineState × List Ev :=
  let displayName := displayNameOf inst style
  if (s.tracks.find? (fun t => t.name == displayName)).isSome then (s, [])
  else
    let loadingTrack : Track :=
      { name := displayName, id := newId, url := none, muted := false }
    ({ s with tracks := s.tracks ++ [loadingTrack],
              history := s.history ++ ["Adding " ++ displayName] },
     [Ev.genRequest displayName])

/-- The continuation of `addTrack` after `await generateTrack` resolves
(source lines 1080-1106): store the url (or `null`) on the track if it still
exists (the functional `setTracks` update maps over the current list, so a
concurrently removed track is simply not there); then — unconditionally, even
if the track was removed — `await loadAudioBuffer` when generation succeeded
and Web Audio is available; finally replace the trailing loading message.
`url` is the generation outcome, `dec` the decode oracle for the buffer. -/
def addTrackResume (trackId : Int) (url : Option String) (dec : Option ℚ)
    (s : EngineState) : EngineState × List Ev :=
  let setUrl := fun (t : Track) =>
    if t.id = trackId then { t with url := url } else t
  let s1 := { s with tracks := s.tracks.map setUrl }
  let loaded :=
    match url with
    | some _ => if s1.webAudioSupported then loadAudioBuffer trackId dec s1
                else (s1, [])
    | none => (s1, [])
  let msg := if url.isSome then "added successfully" else "failed to generate"
  ({ loaded.1 with history := loaded.1.history.dropLast ++ [msg] }, loaded.2)

/-- `changeBPM` (source lines 1462-1473): when url-bearing tracks exist, ask
for confirmation (`confirmed` is the user's answer) and store the new bpm on
yes; with no loaded tracks store it unconditionally.  No range check of any
kind. -/
def changeBPM (newBPM : ℚ) (confirmed : Bool) (s : EngineState) : EngineState :=
  if (s.tracks.filter (fun t => t.url.isSome)).length > 0 then
    if confirmed then
      { s with currentBPM := newBPM, history := s.history ++ ["Changed tempo"] }
    else s
  else { s with currentBPM := newBPM, history := s.history ++ ["Set tempo"] }

/-- The `<audio>` ref callback (source lines 1594-1663): when a url-bearing
track's element mounts, register the element ref (paused at 0, muted as the
track) and attach the restart listener unless one is already attached. -/
def attachElement (trackId : Int) (s : EngineState) : EngineState :=
  match s.tracks.find? (fun t => t.id == trackId) with
  | some t =>
    match t.url with
    | some _ =>
      let el : HtmlAudio := { paused := true, currentTime := 0, muted := t.muted }
      let s1 := { s with htmlAudios := mset s.htmlAudios trackId el }
      if trackId ∈ s1.loopHandlers then s1
      else { s1 with loopHandlers := s1.loopHandlers ++ [trackId] }
    | none => s
  | none => s

/-- The component's initial state: no tracks, default 120 bpm, nothing
playing, no refs.  `webAudio` records whether the mount effect managed to
create the `AudioContext`. -/
def initState (webAudio : Bool) : EngineState :=
  { tracks := [], history := [], currentBPM := 120, isPlayingAll := false,
    webAudioSupported := webAudio, ctxSuspended := false, buffers := [],
    sources := [], gains := [], nodes := [], htmlAudios := [],
    loopHandlers := [] }

/-- One user-level or environment-level action on the component.  Oracle
arguments carry the outcomes of the environment (generation result, decode
result, fallback readiness). -/
inductive Op where
  | addStart (inst : String) (style : Option String) (newId : Int)
  | addResume (trackId : Int) (url : Option String) (dec : Option ℚ)
  | doPlayAll (dec : Int → Option ℚ) (ready : Int → Bool)
  | doStopAll
  | doToggleMute (trackId : Int)
  | doRemoveTrack (trackId : Int)
  | doChangeBPM (newBPM : ℚ) (confirmed : Bool)
  | doAttachElement (trackId : Int)

def applyOp (s : EngineState) : Op → EngineState
  | .addStart inst style newId => (addTrackStart inst style newId s).1
  | .addResume trackId url dec => (addTrackResume trackId url dec s).1
  | .doPlayAll dec ready => (playAll dec ready s).1
  | .doStopAll => stopAll s
  | .doToggleMute trackId => toggleMute trackId s
  | .doRemoveTrack trackId => removeTrack trackId s
  | .doChangeBPM newBPM confirmed => changeBPM newBPM confirmed s
  | .doAttachElement trackId => attachElement trackId s

/-- Run a sequence of actions from the initial state. -/
def run (webAudio : Bool) (ops : List Op) : EngineState :=
  ops.foldl applyOp (initState webAudio)

/-- The node-bookkeeping invariant: every playing node in the log is the one
the `sources` ref currently points at for its track.  Two distinct playing
nodes for one track would both have to be the same index. -/
def SourcesInv (s : EngineState) : Prop :=
  ∀ i : Nat, (s.nodes.getD i defaultSourceNode).playing = true →
    mget s.sources (s.nodes.getD i defaultSourceNode).track = some i

/-! ### Concrete states used by counterexamples and witnesses -/

/-- A ready (url-bearing) track. -/
def readyTrack (nm : String) (i : Int) : Track :=
  { name := nm, id := i, url := some ("blob:" ++ nm), muted := false }

/-- A still-generating track (no url yet). -/
def loadingTrack (nm : String) (i : Int) : Track :=
  { name := nm, id := i, url := none, muted := false }

/-- Two ready tracks, the first one's buffer still to be decoded, the second
one's buffer already cached. -/
def wStateDecode : EngineState :=
  { initState true with tracks := [readyTrack "Piano" 1, readyTrack "Guitar" 2],
                        buffers := [(2, 9)] }

/-- One ready track whose 12 s buffer is cached (longer than the loop
window). -/
def wStateLong : EngineState :=
  { initState true with tracks := [readyTrack "Piano" 1], buffers := [(1, 12)] }

/-- One ready track whose 9 s buffer is cached (shorter than the loop
window). -/
def wStateShort : EngineState :=
  { initState true with tracks := [readyTrack "Piano" 1], buffers := [(1, 9)] }

/-- The C9 scenario before the race: track 1 is still generating, track 2 is
ready with a cached buffer. -/
def raceStart : EngineState :=
  { initState true with tracks := [loadingTrack "Piano" 1, readyTrack "Guitar" 2],
                        buffers := [(2, 9)] }

/-- The C9 scenario after the race: track 1 is removed while its generation
is in flight, then the generation resolves successfully and its decode
succeeds. -/
def raceEnd : EngineState :=
  (addTrackResume 1 (some "blob:piano") (some 9) (removeTrack 1 raceStart)).1

/-- A playing state with two voices, for the mute-toggle witness. -/
def wStatePlaying : EngineState :=
  { initState true with
      tracks := [readyTrack "Piano" 1, readyTrack "Guitar" 2],
      buffers := [(1, 9), (2, 9)],
      isPlayingAll := true,
      sources := [(1, 0), (2, 1)],
      gains := [(1, 1), (2, 1)],
      nodes := [{ track := 1, bufferDuration := 9, loop := true, loopStart := 0,
                  loopEnd := 0, playing := true },
                { track := 2, bufferDuration := 9, loop := true, loopStart := 0,
                  loopEnd := 0, playing := true }],
      htmlAudios := [(1, { paused := true, currentTime := 0, muted := false }),
                     (2, { paused := true, currentTime := 0, muted := false })],
      loopHandlers := [1, 2] }

/-- A concrete session for the single-voice witness: add a track, let its
generation succeed with a 9 s buffer, then play everything. -/
def wOps : List Op :=
  [Op.addStart "Piano" none 1,
   Op.addResume 1 (some "blob:piano") (some 9),
   Op.doPlayAll (fun _ => none) (fun _ => true)]

/-- Companion invariant: every `sources` entry points inside the node log. -/
def SourcesBound (s : EngineState) : Prop :=
  ∀ tr k, mget s.sources tr = some k → k < s.nodes.length

/-- The full node-bookkeeping invariant maintained by every operation. -/
def NodesInv (s : EngineState) : Prop := SourcesInv s ∧ SourcesBound s

/-! ### Bridging lemmas for the rational arithmetic -/

theorem ratFloor_eq_floor (q : ℚ) : Rat.floor q = ⌊q⌋ :=
  (Rat.floor_def' q).trans Rat.floor_def.symm

theorem jsCeil_eq_ceil (q : ℚ) : jsCeil q = ⌈q⌉ := by
  rw [jsCeil, ratFloor_eq_floor, Int.floor_neg, neg_neg]

theorem jsRound_eq_floor (q : ℚ) : jsRound q = ⌊q + 1/2⌋ := ratFloor_eq_floor _

/-! ### JS `Map` lemmas -/

theorem mget_mdel {α : Type} (m : List (Int × α)) (k k' : Int) :
    mget (mdel m k) k' = if k' = k then none else mget m k' := by
  induction m with
  | nil => simp [mget, mdel]
  | cons p ps ih =>
    simp only [mdel]
    by_cases h1 : p.1 = k
    · rw [if_pos h1, ih]
      rcases eq_or_ne k' k with h2 | h2
      · rw [if_pos h2, if_pos h2]
      · rw [if_neg h2, if_neg h2]
        have hp : ¬ p.1 = k' := fun hh => h2 (hh.symm.trans h1)
        simp [mget, hp]
    · rw [if_neg h1]
      simp only [mget]
      rcases eq_or_ne p.1 k' with h2 | h2
      · rw [if_pos h2, if_pos h2]
        have hk : ¬ k' = k := fun hh => h1 (h2.trans hh)
        rw [if_neg hk]
      · rw [if_neg h2, if_neg h2, ih]

theorem mget_mset {α : Type} (m : List (Int × α)) (k k' : Int) (v : α) :
    mget (mset m k v) k' = if k' = k then some v else mget m k' := by
  induction m with
  | nil =>
    simp only [mset, mget]
    split_ifs with h1 h2 h2 <;> try rfl
    · exact absurd h1.symm h2
    · exact absurd h2.symm h1
  | cons p ps ih =>
    simp only [mset]
    by_cases h1 : p.1 = k
    · rw [if_pos h1]
      simp only [mget]
      rcases eq_or_ne k' k with h2 | h2
      · subst h2
        simp
      · have hp : ¬ p.1 = k' := fun hh => h2 (hh.symm.trans h1)
        have hk : ¬ k = k' := fun hh => h2 hh.symm
        simp [hp, hk, h2]
    · rw [if_neg h1]
      simp only [mget, ih]
      rcases eq_or_ne p.1 k' with h2 | h2
      · have hk : ¬ k' = k := fun hh => h1 (h2.trans hh)
        rw [if_pos h2, if_neg hk, if_pos h2]
      · rw [if_neg h2, if_neg h2]

theorem mset_self {α : Type} (m : List (Int × α)) (k : Int) (v : α)
    (h : mget m k = some v) : mset m k v = m := by
  induction m with
  | nil => simp [mget] at h
  | cons p ps ih =>
    by_cases h1 : p.1 = k
    · simp only [mget, if_pos h1] at h
      have hv : v = p.2 := (Option.some_inj.mp h).symm
      subst hv
      simp only [mset, if_pos h1, ← h1, Prod.mk.eta, if_true]
    · simp only [mget, if_neg h1] at h
      simp only [mset, if_neg h1, ih h]

theorem mem_hdel {l : List Int} {k x : Int} :
    x ∈ hdel l k ↔ x ∈ l ∧ x ≠ k := by
  simp [hdel, List.mem_filter]

theorem not_mem_hdel_self (l : List Int) (k : Int) : k ∉ hdel l k := by
  simp [mem_hdel]

theorem hdel_eq_self {l : List Int} {k : Int} (h : k ∉ l) : hdel l k = l := by
  refine List.filter_eq_self.mpr (fun a ha => ?_)
  simpa using fun hh : a = k => h (hh ▸ ha)

theorem not_mem_hdel {l : List Int} {k x : Int} (h : x ∉ l) : x ∉ hdel l k :=
  fun hx => h (mem_hdel.1 hx).1

/-! ### `List.getD` lemmas -/

theorem getD_of_le {α : Type} (l : List α) (d : α) (i : Nat)
    (h : l.length ≤ i) : l.getD i d = d := by
  simp [List.getD_eq_getElem?_getD, List.getElem?_eq_none h]

theorem getD_append_left {α : Type} (l l2 : List α) (d : α) (i : Nat)
    (h : i < l.length) : (l ++ l2).getD i d = l.getD i d := by
  simp [List.getD_eq_getElem?_getD, List.getElem?_append, h]

theorem getD_append_right {α : Type} (l l2 : List α) (d : α) (i : Nat)
    (h : l.length ≤ i) : (l ++ l2).getD i d = l2.getD (i - l.length) d := by
  simp [List.getD_eq_getElem?_getD, List.getElem?_append_right h]

theorem getD_mem {α : Type} (l : List α) (d : α) (i : Nat)
    (h : i < l.length) : l.getD i d ∈ l := by
  rw [List.getD_eq_getElem?_getD, List.getElem?_eq_getElem h]
  exact List.getElem_mem h

theorem getD_set_ne {α : Type} (l : List α) (d a : α) (i k : Nat)
    (h : i ≠ k) : (l.set k a).getD i d = l.getD i d := by
  simp [List.getD_eq_getElem?_getD, List.getElem?_set_ne (Ne.symm h)]

/-! ### `stopNodeAt` lemmas -/

theorem stopNodeAt_length (ns : List SourceNode) (k : Nat) :
    (stopNodeAt ns k).length = ns.length := by
  unfold stopNodeAt
  cases ns.get? k <;> simp

theorem stopNodeAt_getD_ne (ns : List SourceNode) (k i : Nat) (d : SourceNode)
    (h : i ≠ k) : (stopNodeAt ns k).getD i d = ns.getD i d := by
  unfold stopNodeAt
  cases ns.get? k with
  | none => rfl
  | some n => exact getD_set_ne _ _ _ _ _ h

theorem stopNodeAt_playing_self (ns : List SourceNode) (k : Nat) :
    ((stopNodeAt ns k).getD k defaultSourceNode).playing = false := by
  unfold stopNodeAt
  cases hk : ns.get? k with
  | none =>
    have hlen : ns.length ≤ k := by
      by_contra hlt
      rw [List.get?_eq_getElem?, List.getElem?_eq_getElem (by omega)] at hk
      exact absurd hk (by simp)
    rw [getD_of_le _ _ _ hlen]
    rfl
  | some n =>
    have hlt : k < ns.length := by
      by_contra hle
      rw [List.get?_eq_getElem?, List.getElem?_eq_none (by omega)] at hk
      exact absurd hk (by simp)
    rw [List.getD_eq_getElem?_getD, List.getElem?_set_self hlt]
    rfl

theorem stopNodeAt_playing_mono (ns : List SourceNode) (k i : Nat)
    (d : SourceNode)
    (h : ((stopNodeAt ns k).getD i d).playing = true) :
    (ns.getD i d).playing = true := by
  by_cases hik : i = k
  · subst hik
    unfold stopNodeAt at h
    cases hk : ns.get? i with
    | none => rwa [hk] at h
    | some n =>
      rw [hk] at h
      have hlt : i < ns.length := by
        by_contra hle
        rw [List.get?_eq_getElem?, List.getElem?_eq_none (by omega)] at hk
        exact absurd hk (by simp)
      rw [List.getD_eq_getElem?_getD, List.getElem?_set_self hlt] at h
      simp at h
  · rwa [stopNodeAt_getD_ne _ _ _ _ hik] at h

theorem stopNodeAt_track_eq (ns : List SourceNode) (k i : Nat)
    (d : SourceNode) :
    ((stopNodeAt ns k).getD i d).track = (ns.getD i d).track := by
  by_cases hik : i = k
  · subst hik
    unfold stopNodeAt
    cases hk : ns.get? i with
    | none => rfl
    | some n =>
      have hlt : i < ns.length := by
        by_contra hle
        rw [List.get?_eq_getElem?, List.getElem?_eq_none (by omega)] at hk
        exact absurd hk (by simp)
      have hn : ns[i] = n := by
        apply Option.some_inj.mp
        rw [← List.getElem?_eq_getElem hlt, ← List.get?_eq_getElem?]
        exact hk
      rw [List.getD_eq_getElem?_getD, List.getElem?_set_self hlt,
        List.getD_eq_getElem?_getD, List.getElem?_eq_getElem hlt, hn]
      rfl
  · rw [stopNodeAt_getD_ne _ _ _ _ hik]

/-! ### C2: the loop window is the least whole number of bars reaching 10 s -/

/-- **C2**: for every bpm in the supported range (60-200) at the 4/4 time
signature, `calculateOptimalDuration` returns exactly the least whole number
of bars whose total length reaches the 10 second floor, times the bar length
`60 / bpm * 4`, rounded to millisecond precision (`jsRound (x * 1000) / 1000`);
the function is deterministic, and the two reference examples hold:
120 bpm gives 10 s (5 bars) and 90 bpm gives 10.667 s (4 bars). -/
theorem calculateOptimalDuration_least_whole_bars (bpm : ℚ)
    (h1 : 60 ≤ bpm) (h2 : bpm ≤ 200) :
    (∃ n : ℤ, 0 < n ∧ 10 ≤ (n : ℚ) * (60 / bpm * 4) ∧
       (∀ m : ℤ, 10 ≤ (m : ℚ) * (60 / bpm * 4) → n ≤ m) ∧
       calculateOptimalDuration bpm =
         (jsRound ((n : ℚ) * (60 / bpm * 4) * 1000) : ℚ) / 1000) ∧
    calculateOptimalDuration bpm = calculateOptimalDuration bpm ∧
    calculateOptimalDuration 120 = 10 ∧
    calculateOptimalDuration 90 = 10667 / 1000 := by
  have hb : (0:ℚ) < bpm := lt_of_lt_of_le (by norm_num) h1
  have hbar : (0:ℚ) < 60 / bpm * 4 := by positivity
  refine ⟨⟨jsCeil (10 / (60 / bpm * 4)), ?_, ?_, ?_, rfl⟩, rfl, ?_, ?_⟩
  · rw [jsCeil_eq_ceil]
    exact Int.ceil_pos.mpr (by positivity)
  · rw [jsCeil_eq_ceil]
    calc (10:ℚ) = 10 / (60 / bpm * 4) * (60 / bpm * 4) := by field_simp
    _ ≤ (⌈(10:ℚ) / (60 / bpm * 4)⌉ : ℚ) * (60 / bpm * 4) :=
        mul_le_mul_of_nonneg_right (Int.le_ceil _) (le_of_lt hbar)
  · intro m hm
    rw [jsCeil_eq_ceil, Int.ceil_le, div_le_iff₀ hbar]
    exact_mod_cast hm
  · simp only [calculateOptimalDuration, jsCeil, jsRound, ratFloor_eq_floor]
    norm_num
  · simp only [calculateOptimalDuration, jsCeil, jsRound, ratFloor_eq_floor]
    norm_num

/-- Witness for C2: the theorem applied at bpm = 120 with both range
hypotheses discharged. -/
theorem calculateOptimalDuration_least_whole_bars_witness :
    ((60:ℚ) ≤ 120) ∧ ((120:ℚ) ≤ 200) ∧ calculateOptimalDuration 120 = 10 :=
  ⟨by norm_num, by norm_num,
    (calculateOptimalDuration_least_whole_bars 120 (by norm_num)
      (by norm_num)).2.2.1⟩

/-! ### C5: no InvalidTempo error exists, and callers do not validate -/

/-- **C5** counterexample: the claim says the loop-window computation signals
an `InvalidTempo` error for every `bpm <= 0` and that callers reject tempi
outside 60-200 before it is reached.  In the source there is no error channel
at all: at the invalid tempo -60 the computation succeeds and returns the
ordinary duration 8, and `changeBPM` happily stores the out-of-range tempo
300 (with no url-bearing tracks no confirmation is even asked). -/
theorem calculateOptimalDuration_no_invalid_tempo_error :
    calculateOptimalDuration (-60) = 8 ∧
    (changeBPM 300 false (initState true)).currentBPM = 300 := by
  constructor
  · simp only [calculateOptimalDuration, jsCeil, jsRound, ratFloor_eq_floor]
    norm_num
  · rfl

/-- **C5** amended: the loop-window computation never fails — for every
positive bpm it succeeds and returns a duration of at least the 10 second
floor (and it returns plain numbers even for negative bpm, see the
counterexample) — and callers perform no 60-200 range validation:
`changeBPM` stores any requested tempo once the user confirms (and without
any confirmation when no generated track exists). -/
theorem calculateOptimalDuration_total_and_unvalidated :
    (∀ bpm : ℚ, 0 < bpm → 10 ≤ calculateOptimalDuration bpm) ∧
    (∀ (b : ℚ) (s : EngineState), (changeBPM b true s).currentBPM = b) := by
  constructor
  · intro bpm hb
    have hbar : (0:ℚ) < 60 / bpm * 4 := by positivity
    have hge : (10:ℚ) ≤ (jsCeil (10 / (60 / bpm * 4)) : ℚ) * (60 / bpm * 4) := by
      rw [jsCeil_eq_ceil]
      calc (10:ℚ) = 10 / (60 / bpm * 4) * (60 / bpm * 4) := by field_simp
      _ ≤ (⌈(10:ℚ) / (60 / bpm * 4)⌉ : ℚ) * (60 / bpm * 4) :=
          mul_le_mul_of_nonneg_right (Int.le_ceil _) (le_of_lt hbar)
    show (10:ℚ) ≤
      (jsRound ((jsCeil (10 / (60 / bpm * 4)) : ℚ) * (60 / bpm * 4) * 1000) : ℚ)
        / 1000
    rw [jsRound_eq_floor]
    have hfl : (10000:ℤ) ≤
        ⌊(jsCeil (10 / (60 / bpm * 4)) : ℚ) * (60 / bpm * 4) * 1000 + 1/2⌋ := by
      apply Int.le_floor.mpr
      push_cast
      nlinarith [hge]
    have hq : ((10000:ℚ)) ≤
        (⌊(jsCeil (10 / (60 / bpm * 4)) : ℚ) * (60 / bpm * 4) * 1000 + 1/2⌋ : ℚ) := by
      exact_mod_cast hfl
    linarith
  · intro b s
    unfold changeBPM
    split_ifs with h1 h2
    · rfl
    · exact absurd rfl h2
    · rfl

/-- Witness for C5's amended theorem: applied at bpm = 90 (hypothesis
`0 < 90` discharged) and at a concrete `changeBPM` call. -/
theorem calculateOptimalDuration_total_and_unvalidated_witness :
    ((0:ℚ) < 90) ∧ (10:ℚ) ≤ calculateOptimalDuration 90 ∧
    (changeBPM 77 true (initState true)).currentBPM = 77 :=
  ⟨by norm_num,
    calculateOptimalDuration_total_and_unvalidated.1 90 (by norm_num),
    calculateOptimalDuration_total_and_unvalidated.2 77 (initState true)⟩

/-! ### C3: loop-region clamping in `playTrackWebAudio` -/

/-- **C3**: starting a voice for a decoded clip configures the new source
node with `loopStart = 0`, looping enabled, and a loop region that ends at
`MAX_LOOP_DURATION` (10 s) exactly when the clip is longer than that, and at
the clip's own natural duration (the Web Audio default `loopEnd = 0`)
otherwise. -/
theorem playTrackWebAudio_loop_clamp (s : EngineState) (trackId : Int)
    (muted : Bool) (d : ℚ) (hw : s.webAudioSupported = true)
    (hb : mget s.buffers trackId = some d) :
    ∃ n : SourceNode,
      ((playTrackWebAudio trackId muted s).1).nodes.getLast? = some n ∧
      n.track = trackId ∧ n.loop = true ∧ n.playing = true ∧ n.loopStart = 0 ∧
      (MAX_LOOP_DURATION < d → n.effectiveLoopEnd = MAX_LOOP_DURATION) ∧
      (d ≤ MAX_LOOP_DURATION → n.effectiveLoopEnd = d) := by
  simp only [playTrackWebAudio, hw, hb, not_true_eq_false, if_false]
  rcases hsrc : mget s.sources trackId with _ | k <;>
    simp only [hsrc] <;>
    refine ⟨_, List.getLast?_concat _, rfl, rfl, rfl, rfl, ?_, ?_⟩ <;>
    intro h <;>
    simp only [SourceNode.effectiveLoopEnd]
  · rw [if_pos h]
    rw [if_neg (by norm_num [MAX_LOOP_DURATION])]
  · rw [if_neg (not_lt.mpr h)]
    rw [if_pos rfl]
  · rw [if_pos h]
    rw [if_neg (by norm_num [MAX_LOOP_DURATION])]
  · rw [if_neg (not_lt.mpr h)]
    rw [if_pos rfl]

/-- Witness for C3: a 12 s clip is clamped to the 10 s window, a 9 s clip
loops over its full 9 s. -/
theorem playTrackWebAudio_loop_clamp_witness :
    wStateLong.webAudioSupported = true ∧ mget wStateLong.buffers 1 = some 12 ∧
    (∃ n, ((playTrackWebAudio 1 false wStateLong).1).nodes.getLast? = some n ∧
      n.effectiveLoopEnd = MAX_LOOP_DURATION) ∧
    (∃ n, ((playTrackWebAudio 1 false wStateShort).1).nodes.getLast? = some n ∧
      n.effectiveLoopEnd = 9) := by
  refine ⟨rfl, by decide, ?_, ?_⟩
  · obtain ⟨n, h1, _, _, _, _, h6, _⟩ :=
      playTrackWebAudio_loop_clamp wStateLong 1 false 12 rfl (by decide)
    exact ⟨n, h1, h6 (by norm_num [MAX_LOOP_DURATION])⟩
  · obtain ⟨n, h1, _, _, _, _, _, h7⟩ :=
      playTrackWebAudio_loop_clamp wStateShort 1 false 9 rfl (by decide)
    exact ⟨n, h1, h7 (by norm_num [MAX_LOOP_DURATION])⟩

/-! ### C10: duplicate display name makes `addTrack` a no-op -/

/-- **C10**: when the display name derived from the instrument and optional
style already names a track, `addTrack`'s guarded body is skipped entirely:
the state (track list and history included) is unchanged and no generation
request is issued. -/
theorem addTrack_duplicate_name_noop (s : EngineState) (inst : String)
    (style : Option String) (newId : Int)
    (hdup : ∃ t ∈ s.tracks, t.name = displayNameOf inst style) :
    addTrackStart inst style newId s = (s, []) := by
  unfold addTrackStart
  have hfound : (s.tracks.find? (fun t => t.name == displayNameOf inst style)).isSome = true := by
    rw [List.find?_isSome]
    obtain ⟨t, ht, hn⟩ := hdup
    exact ⟨t, ht, by simpa using hn⟩
  rw [if_pos hfound]

/-- Witness for C10: adding "Piano" a second time changes nothing and emits
no generation request. -/
theorem addTrack_duplicate_name_noop_witness :
    (∃ t ∈ wStateShort.tracks, t.name = displayNameOf "Piano" none) ∧
    addTrackStart "Piano" none 5 wStateShort = (wStateShort, []) :=
  ⟨⟨readyTrack "Piano" 1, by decide, rfl⟩,
    addTrack_duplicate_name_noop wStateShort "Piano" none 5
      ⟨readyTrack "Piano" 1, by decide, rfl⟩⟩

/-! ### C9: removal racing an in-flight generation -/

/-- **C9** (evidence for the code bug): remove track 1 while its generation
is in flight, then let the generation resolve successfully and its decode
succeed.  The removed track never starts (a later `playAll` starts only the
surviving track 2), but — against the spec's discard requirement — the
resolved result IS cached: the decoded buffer sits in the buffer map under
the removed id, because `addTrack`'s continuation calls `loadAudioBuffer`
unconditionally after the track-list update. -/
theorem removeTrack_midflight_decode_caches_buffer :
    mget raceEnd.buffers 1 = some 9 ∧
    raceEnd.tracks.all (fun t => t.id != 1) = true ∧
    (playAll (fun _ => none) (fun _ => true) raceEnd).2.filter
      (fun e => e.isStarted) = [Ev.started 2] := by decide

/-! ### C7: mute toggling touches nothing but the one track's level -/

theorem toggleMuteWebAudio_nodes (i : Int) (m : Bool) (s : EngineState) :
    (toggleMuteWebAudio i m s).nodes = s.nodes := by
  unfold toggleMuteWebAudio
  cases mget s.gains i <;> rfl

theorem toggleMuteWebAudio_sources (i : Int) (m : Bool) (s : EngineState) :
    (toggleMuteWebAudio i m s).sources = s.sources := by
  unfold toggleMuteWebAudio
  cases mget s.gains i <;> rfl

theorem toggleMuteWebAudio_buffers (i : Int) (m : Bool) (s : EngineState) :
    (toggleMuteWebAudio i m s).buffers = s.buffers := by
  unfold toggleMuteWebAudio
  cases mget s.gains i <;> rfl

theorem toggleMuteWebAudio_isPlayingAll (i : Int) (m : Bool) (s : EngineState) :
    (toggleMuteWebAudio i m s).isPlayingAll = s.isPlayingAll := by
  unfold toggleMuteWebAudio
  cases mget s.gains i <;> rfl

theorem toggleMuteWebAudio_htmlAudios (i : Int) (m : Bool) (s : EngineState) :
    (toggleMuteWebAudio i m s).htmlAudios = s.htmlAudios := by
  unfold toggleMuteWebAudio
  cases mget s.gains i <;> rfl

theorem toggleMuteWebAudio_tracks (i : Int) (m : Bool) (s : EngineState) :
    (toggleMuteWebAudio i m s).tracks = s.tracks := by
  unfold toggleMuteWebAudio
  cases mget s.gains i <;> rfl

theorem toggleMuteWebAudio_gains_ne (i k : Int) (m : Bool) (s : EngineState)
    (h : k ≠ i) :
    mget (toggleMuteWebAudio i m s).gains k = mget s.gains k := by
  unfold toggleMuteWebAudio
  cases mget s.gains i with
  | none => rfl
  | some g => simp [mget_mset, h]

theorem toggleMuteWebAudio_gains_self (i : Int) (m : Bool) (s : EngineState)
    (g : ℚ) (hg : mget s.gains i = some g) :
    mget (toggleMuteWebAudio i m s).gains i = some (if m then 0 else 1) := by
  unfold toggleMuteWebAudio
  rw [hg]
  simp [mget_mset]

theorem toggleMuteWebAudio_gains_none (i : Int) (m : Bool) (s : EngineState)
    (hg : mget s.gains i = none) :
    (toggleMuteWebAudio i m s).gains = s.gains := by
  unfold toggleMuteWebAudio
  rw [hg]

/-- **C7**: toggling a track's mute flips exactly that track's stored flag
and, while the engine is playing over Web Audio with an active gain node for
the track, sets exactly that gain to 0 (muted) or 1 (unmuted); it stops or
restarts nothing (nodes, sources and decoded buffers are untouched), leaves
every other track's gain and stored flag alone, and on a track with no
active gain node it only records the flag (gains untouched), without
error. -/
theorem toggleMute_frame (s : EngineState) (trackId : Int) (tr : Track)
    (hfind : s.tracks.find? (fun t => t.id == trackId) = some tr) :
    (toggleMute trackId s).nodes = s.nodes ∧
    (toggleMute trackId s).sources = s.sources ∧
    (toggleMute trackId s).buffers = s.buffers ∧
    (toggleMute trackId s).isPlayingAll = s.isPlayingAll ∧
    (toggleMute trackId s).tracks = s.tracks.map
      (fun t => if t.id = trackId then { t with muted := !tr.muted } else t) ∧
    (∀ k, k ≠ trackId → mget (toggleMute trackId s).gains k = mget s.gains k) ∧
    (s.isPlayingAll = true → s.webAudioSupported = true →
      ∀ g, mget s.gains trackId = some g →
        mget (toggleMute trackId s).gains trackId =
          some (if !tr.muted then 0 else 1)) ∧
    (s.isPlayingAll = true → s.webAudioSupported = true →
      (toggleMute trackId s).htmlAudios = s.htmlAudios) ∧
    (mget s.gains trackId = none → (toggleMute trackId s).gains = s.gains) ∧
    (¬(s.isPlayingAll = true ∧ s.webAudioSupported = true) →
      (toggleMute trackId s).gains = s.gains ∧
      ∀ k, k ≠ trackId →
        mget (toggleMute trackId s).htmlAudios k = mget s.htmlAudios k) := by
  have hmuted :
      (! (match s.tracks.find? (fun t => t.id == trackId) with
          | some t => t.muted
          | none => false)) = !tr.muted := by rw [hfind]
  unfold toggleMute
  rw [hmuted]
  by_cases hcond : (s.isPlayingAll && s.webAudioSupported) = true
  · rw [if_pos hcond]
    have hcond' := hcond
    rw [Bool.and_eq_true] at hcond'
    exact ⟨toggleMuteWebAudio_nodes _ _ _, toggleMuteWebAudio_sources _ _ _,
      toggleMuteWebAudio_buffers _ _ _, toggleMuteWebAudio_isPlayingAll _ _ _,
      (toggleMuteWebAudio_tracks _ _ _).trans rfl,
      fun k hk => toggleMuteWebAudio_gains_ne _ _ _ _ hk,
      fun _ _ g hg => toggleMuteWebAudio_gains_self _ _ _ g hg,
      fun _ _ => toggleMuteWebAudio_htmlAudios _ _ _,
      fun hg => toggleMuteWebAudio_gains_none _ _ _ hg,
      fun hnot => absurd hcond' hnot⟩
  · rw [if_neg hcond]
    have hcond' : ¬(s.isPlayingAll = true ∧ s.webAudioSupported = true) := by
      rw [Bool.and_eq_true] at hcond
      exact hcond
    rcases hel : mget s.htmlAudios trackId with _ | el
    · exact ⟨rfl, rfl, rfl, rfl, rfl, fun k _ => rfl,
        fun h1 h2 g hg => absurd ⟨h1, h2⟩ hcond',
        fun h1 h2 => absurd ⟨h1, h2⟩ hcond',
        fun _ => rfl, fun _ => ⟨rfl, fun k _ => rfl⟩⟩
    · refine ⟨rfl, rfl, rfl, rfl, rfl, fun k _ => rfl,
        fun h1 h2 g hg => absurd ⟨h1, h2⟩ hcond',
        fun h1 h2 => absurd ⟨h1, h2⟩ hcond',
        fun _ => rfl, fun _ => ⟨rfl, fun k hk => ?_⟩⟩
      simp [mget_mset, hk]

/-- Witness for C7: in a playing two-voice state, muting track 1 drops its
gain to 0 while track 2's gain and all playback nodes are untouched. -/
theorem toggleMute_frame_witness :
    wStatePlaying.tracks.find? (fun t => t.id == 1) = some (readyTrack "Piano" 1) ∧
    (toggleMute 1 wStatePlaying).nodes = wStatePlaying.nodes ∧
    mget (toggleMute 1 wStatePlaying).gains 2 = mget wStatePlaying.gains 2 ∧
    mget (toggleMute 1 wStatePlaying).gains 1 = some 0 := by
  have h := toggleMute_frame wStatePlaying 1 (readyTrack "Piano" 1) (by decide)
  refine ⟨by decide, h.1, h.2.2.2.2.2.1 2 (by decide), ?_⟩
  have hg := h.2.2.2.2.2.2.1 rfl rfl 1 (by decide)
  simpa [readyTrack] using hg

/-! ### C1: barrier and synchronous-start structure of the `playAll` trace -/

theorem foldl_acc_events
    (step : (EngineState × List Ev) → Track → EngineState × List Ev)
    (P : Ev → Prop)
    (hstep : ∀ acc t, ∃ new, (step acc t).2 = acc.2 ++ new ∧ ∀ e ∈ new, P e) :
    ∀ (ts : List Track) (acc : EngineState × List Ev) (e : Ev),
      e ∈ (ts.foldl step acc).2 → e ∈ acc.2 ∨ P e := by
  intro ts
  induction ts with
  | nil => exact fun acc e he => Or.inl he
  | cons t ts ih =>
    intro acc e he
    rw [List.foldl_cons] at he
    rcases ih (step acc t) e he with hin | hp
    · obtain ⟨new, hnew, hPnew⟩ := hstep acc t
      rw [hnew] at hin
      rcases List.mem_append.1 hin with h1 | h2
      · exact Or.inl h1
      · exact Or.inr (hPnew e h2)
    · exact Or.inr hp

theorem decodeStep_events (dec : Int → Option ℚ) (acc : EngineState × List Ev)
    (t : Track) :
    ∃ new, (decodeStep dec acc t).2 = acc.2 ++ new ∧
      ∀ e ∈ new, e = Ev.awaitPoint ∨ ∃ i ok, e = Ev.decodeSettled i ok := by
  unfold decodeStep
  by_cases hbuf : (mget acc.1.buffers t.id).isSome = true
  · rw [if_pos hbuf]
    exact ⟨[], by simp, by simp⟩
  · rw [if_neg hbuf]
    rcases hurl : t.url with _ | u
    · exact ⟨[], by simp, by simp⟩
    · simp only []
      unfold loadAudioBuffer
      by_cases hw : acc.1.webAudioSupported = true
      · rw [if_neg (by simp [hw])]
        rcases hdec : dec t.id with _ | dval
        · refine ⟨[Ev.awaitPoint, Ev.decodeSettled t.id false], rfl, ?_⟩
          intro e he
          simp only [List.mem_cons, List.mem_singleton, List.not_mem_nil, or_false] at he
          rcases he with rfl | rfl
          · exact Or.inl rfl
          · exact Or.inr ⟨t.id, false, rfl⟩
        · refine ⟨[Ev.awaitPoint, Ev.decodeSettled t.id true], rfl, ?_⟩
          intro e he
          simp only [List.mem_cons, List.mem_singleton, List.not_mem_nil, or_false] at he
          rcases he with rfl | rfl
          · exact Or.inl rfl
          · exact Or.inr ⟨t.id, true, rfl⟩
      · rw [if_pos (by simp [hw])]
        exact ⟨[], rfl, by simp⟩

theorem startStep_events (acc : EngineState × List Ev) (t : Track) :
    ∃ new, (startStep acc t).2 = acc.2 ++ new ∧
      ∀ e ∈ new, (∃ i, e = Ev.started i) ∨ ∃ i, e = Ev.skippedNoBuffer i := by
  unfold startStep
  by_cases hc : (t.url.isSome && (mget acc.1.buffers t.id).isSome) = true
  · rw [if_pos hc]
    simp only []
    unfold playTrackWebAudio
    by_cases hw : acc.1.webAudioSupported = true
    · rw [if_neg (by simp [hw])]
      rcases hbuf : mget acc.1.buffers t.id with _ | d
      · exact ⟨[], rfl, by simp⟩
      · refine ⟨[Ev.started t.id], rfl, ?_⟩
        intro e he
        simp only [List.mem_singleton] at he
        exact Or.inl ⟨t.id, he⟩
    · rw [if_pos (by simp [hw])]
      exact ⟨[], rfl, by simp⟩
  · rw [if_neg hc]
    refine ⟨[Ev.skippedNoBuffer t.id], rfl, ?_⟩
    intro e he
    simp only [List.mem_singleton] at he
    exact Or.inr ⟨t.id, he⟩

theorem pauseHtmlStep_eq (s : EngineState) (t : Track) :
    ∃ ha, pauseHtmlStep s t = { s with htmlAudios := ha } := by
  unfold pauseHtmlStep
  rcases mget s.htmlAudios t.id with _ | el
  · exact ⟨s.htmlAudios, rfl⟩
  · rcases t.url with _ | u
    · exact ⟨s.htmlAudios, rfl⟩
    · exact ⟨_, rfl⟩

theorem pauseHtmlFold_eq (ts : List Track) :
    ∀ s : EngineState, ∃ ha, ts.foldl pauseHtmlStep s = { s with htmlAudios := ha } := by
  induction ts with
  | nil => exact fun s => ⟨s.htmlAudios, rfl⟩
  | cons t ts ih =>
    intro s
    obtain ⟨x, hx⟩ := pauseHtmlStep_eq s t
    obtain ⟨ha, hha⟩ := ih (pauseHtmlStep s t)
    rw [hx] at hha
    exact ⟨ha, by rw [List.foldl_cons, hx]; exact hha⟩

theorem fallbackPrepareStep_eq (s : EngineState) (t : Track) :
    ∃ ha, fallbackPrepareStep s t = { s with htmlAudios := ha } := by
  unfold fallbackPrepareStep
  rcases mget s.htmlAudios t.id with _ | el
  · exact ⟨s.htmlAudios, rfl⟩
  · rcases t.url with _ | u
    · exact ⟨s.htmlAudios, rfl⟩
    · exact ⟨_, rfl⟩

theorem fallbackPrepareFold_eq (ts : List Track) :
    ∀ s : EngineState, ∃ ha, ts.foldl fallbackPrepareStep s = { s with htmlAudios := ha } := by
  induction ts with
  | nil => exact fun s => ⟨s.htmlAudios, rfl⟩
  | cons t ts ih =>
    intro s
    obtain ⟨x, hx⟩ := fallbackPrepareStep_eq s t
    obtain ⟨ha, hha⟩ := ih (fallbackPrepareStep s t)
    rw [hx] at hha
    exact ⟨ha, by rw [List.foldl_cons, hx]; exact hha⟩

theorem fallbackPlayStep_eq (s : EngineState) (t : Track) :
    ∃ ha, fallbackPlayStep s t = { s with htmlAudios := ha } := by
  unfold fallbackPlayStep
  rcases mget s.htmlAudios t.id with _ | el
  · exact ⟨s.htmlAudios, rfl⟩
  · exact ⟨_, rfl⟩

theorem fallbackPlayFold_eq (ts : List Track) :
    ∀ s : EngineState, ∃ ha, ts.foldl fallbackPlayStep s = { s with htmlAudios := ha } := by
  induction ts with
  | nil => exact fun s => ⟨s.htmlAudios, rfl⟩
  | cons t ts ih =>
    intro s
    obtain ⟨x, hx⟩ := fallbackPlayStep_eq s t
    obtain ⟨ha, hha⟩ := ih (fallbackPlayStep s t)
    rw [hx] at hha
    exact ⟨ha, by rw [List.foldl_cons, hx]; exact hha⟩

theorem loadAudioBuffer_state_eq (i : Int) (dec : Option ℚ) (s : EngineState) :
    ∃ b, (loadAudioBuffer i dec s).1 = { s with buffers := b } := by
  unfold loadAudioBuffer
  by_cases hw : s.webAudioSupported = true
  · rw [if_neg (by simp [hw])]
    rcases dec with _ | d
    · exact ⟨s.buffers, rfl⟩
    · exact ⟨_, rfl⟩
  · rw [if_pos (by simp [hw])]
    exact ⟨s.buffers, rfl⟩

theorem decodeStep_state_eq (dec : Int → Option ℚ) (acc : EngineState × List Ev)
    (t : Track) :
    ∃ b, (decodeStep dec acc t).1 = { acc.1 with buffers := b } := by
  unfold decodeStep
  by_cases hbuf : (mget acc.1.buffers t.id).isSome = true
  · rw [if_pos hbuf]
    exact ⟨acc.1.buffers, rfl⟩
  · rw [if_neg hbuf]
    rcases t.url with _ | u
    · exact ⟨acc.1.buffers, rfl⟩
    · simp only []
      exact loadAudioBuffer_state_eq t.id (dec t.id) acc.1

theorem decodeFold_state_eq (dec : Int → Option ℚ) (ts : List Track) :
    ∀ acc : EngineState × List Ev,
      ∃ b, (ts.foldl (decodeStep dec) acc).1 = { acc.1 with buffers := b } := by
  induction ts with
  | nil => exact fun acc => ⟨acc.1.buffers, rfl⟩
  | cons t ts ih =>
    intro acc
    obtain ⟨x, hx⟩ := decodeStep_state_eq dec acc t
    obtain ⟨b, hb⟩ := ih (decodeStep dec acc t)
    rw [hx] at hb
    exact ⟨b, by rw [List.foldl_cons]; exact hb⟩

theorem playTrackWebAudio_state_eq (i : Int) (m : Bool) (s : EngineState) :
    ∃ ns src g, (playTrackWebAudio i m s).1 =
      { s with nodes := ns, sources := src, gains := g } := by
  unfold playTrackWebAudio
  by_cases hw : s.webAudioSupported = true
  · rw [if_neg (by simp [hw])]
    rcases mget s.buffers i with _ | d
    · exact ⟨s.nodes, s.sources, s.gains, rfl⟩
    · rcases mget s.sources i with _ | k
      · exact ⟨_, _, _, rfl⟩
      · exact ⟨_, _, _, rfl⟩
  · rw [if_pos (by simp [hw])]
    exact ⟨s.nodes, s.sources, s.gains, rfl⟩

theorem startStep_state_eq (acc : EngineState × List Ev) (t : Track) :
    ∃ ns src g, (startStep acc t).1 =
      { acc.1 with nodes := ns, sources := src, gains := g } := by
  unfold startStep
  by_cases hc : (t.url.isSome && (mget acc.1.buffers t.id).isSome) = true
  · rw [if_pos hc]
    exact playTrackWebAudio_state_eq t.id t.muted acc.1
  · rw [if_neg hc]
    exact ⟨acc.1.nodes, acc.1.sources, acc.1.gains, rfl⟩

theorem startFold_state_eq (ts : List Track) :
    ∀ acc : EngineState × List Ev,
      ∃ ns src g, (ts.foldl startStep acc).1 =
        { acc.1 with nodes := ns, sources := src, gains := g } := by
  induction ts with
  | nil => exact fun acc => ⟨acc.1.nodes, acc.1.sources, acc.1.gains, rfl⟩
  | cons t ts ih =>
    intro acc
    obtain ⟨x, y, z, hx⟩ := startStep_state_eq acc t
    obtain ⟨ns, src, g, hb⟩ := ih (startStep acc t)
    rw [hx] at hb
    exact ⟨ns, src, g, by rw [List.foldl_cons]; exact hb⟩

theorem decodePhase_no_started (dec : Int → Option ℚ) (ts : List Track)
    (s0 : EngineState) (e : Ev) (he : e ∈ (decodePhase dec ts s0).2) :
    e.isStarted = false := by
  rw [decodePhase] at he
  rcases foldl_acc_events _ _ (decodeStep_events dec) ts (s0, []) e he with h0 | hP
  · exact absurd h0 (List.not_mem_nil e)
  · rcases hP with rfl | ⟨i, ok, rfl⟩ <;> rfl

theorem startPhase_no_barrier (ts : List Track) (s0 : EngineState) (e : Ev)
    (he : e ∈ (startPhase ts s0).2) :
    e.isAwaitPoint = false ∧ e.isDecodeSettled = false := by
  rw [startPhase] at he
  rcases foldl_acc_events _ _ startStep_events ts (s0, []) e he with h0 | hP
  · exact absurd h0 (List.not_mem_nil e)
  · rcases hP with ⟨i, rfl⟩ | ⟨i, rfl⟩ <;> exact ⟨rfl, rfl⟩

theorem playAll_trace_decomposition (dec : Int → Option ℚ) (ready : Int → Bool)
    (s : EngineState) (h : s.tracks.filter (fun t => t.url.isSome) ≠ []) :
    ∃ P M Q, (playAll dec ready s).2 = P ++ M ++ Q ∧
      (∀ e ∈ P, e.isStarted = false) ∧
      (∀ e ∈ M, e.isAwaitPoint = false ∧ e.isDecodeSettled = false) ∧
      (∀ e ∈ Q, e.isStarted = false ∧ e.isDecodeSettled = false) := by
  have hne : (s.tracks.filter (fun t => t.url.isSome)).isEmpty = false := by
    rcases hl : s.tracks.filter (fun t => t.url.isSome) with _ | ⟨a, l⟩
    · exact absurd hl h
    · rw [hl]
      rfl
  obtain ⟨ha, hs1⟩ := pauseHtmlFold_eq s.tracks s
  simp only [playAll, hne, Bool.false_eq_true, if_false, hs1]
  cases hw : s.webAudioSupported with
  | true =>
    cases hctx : s.ctxSuspended with
    | true =>
      simp only [hw, hctx, Bool.and_self, if_true]
      refine ⟨[Ev.awaitPoint] ++
        (decodePhase dec (List.filter (fun t => t.url.isSome) s.tracks)
          { s with isPlayingAll := true, webAudioSupported := true,
                   ctxSuspended := false, htmlAudios := ha }).2,
        (startPhase (List.filter (fun t => t.url.isSome) s.tracks)
          (decodePhase dec (List.filter (fun t => t.url.isSome) s.tracks)
            { s with isPlayingAll := true, webAudioSupported := true,
                     ctxSuspended := false, htmlAudios := ha }).1).2,
        [], by simp, ?_, ?_, by simp⟩
      · intro e he
        rcases List.mem_append.1 he with h1 | h2
        · simp only [List.mem_singleton] at h1
          subst h1
          rfl
        · exact decodePhase_no_started _ _ _ _ h2
      · exact fun e he => startPhase_no_barrier _ _ _ he
    | false =>
      simp only [hw, hctx, Bool.and_false, Bool.false_eq_true, if_false]
      refine ⟨(decodePhase dec (List.filter (fun t => t.url.isSome) s.tracks)
          { s with isPlayingAll := true, webAudioSupported := true,
                   ctxSuspended := false, htmlAudios := ha }).2,
        (startPhase (List.filter (fun t => t.url.isSome) s.tracks)
          (decodePhase dec (List.filter (fun t => t.url.isSome) s.tracks)
            { s with isPlayingAll := true, webAudioSupported := true,
                     ctxSuspended := false, htmlAudios := ha }).1).2,
        [], by simp, ?_, ?_, by simp⟩
      · exact fun e he => decodePhase_no_started _ _ _ _ he
      · exact fun e he => startPhase_no_barrier _ _ _ he
  | false =>
    simp only [hw, Bool.false_and, Bool.false_eq_true, if_false]
    obtain ⟨hb, hs3⟩ := fallbackPrepareFold_eq
      (List.filter (fun t => t.url.isSome) s.tracks)
      { s with isPlayingAll := true, webAudioSupported := false, htmlAudios := ha }
    simp only [hs3]
    by_cases helems : (List.filter
        (fun t => (mget hb t.id).isSome && t.url.isSome)
        (List.filter (fun t => t.url.isSome) s.tracks)).isEmpty = true
    · simp only [helems, if_true]
      exact ⟨[], [], [], by simp, by simp, by simp, by simp⟩
    · simp only [helems, Bool.false_eq_true, if_false]
      by_cases hready : (List.filter
          (fun t => (mget hb t.id).isSome && t.url.isSome)
          (List.filter (fun t => t.url.isSome) s.tracks)).all
            (fun t => ready t.id) = true
      · simp only [hready, if_true]
        refine ⟨[Ev.awaitPoint] ++
          (List.filter (fun t => (mget hb t.id).isSome && t.url.isSome)
            (List.filter (fun t => t.url.isSome) s.tracks)).map
              (fun t => Ev.decodeSettled t.id (ready t.id)),
          (List.filter (fun t => (mget hb t.id).isSome && t.url.isSome)
            (List.filter (fun t => t.url.isSome) s.tracks)).map
              (fun t => Ev.started t.id),
          [Ev.awaitPoint], by simp, ?_, ?_, ?_⟩
        · intro e he
          simp only [List.mem_append, List.mem_singleton, List.mem_map] at he
          rcases he with rfl | ⟨t, _, rfl⟩ <;> rfl
        · intro e he
          simp only [List.mem_map] at he
          obtain ⟨t, _, rfl⟩ := he
          exact ⟨rfl, rfl⟩
        · intro e he
          simp only [List.mem_singleton] at he
          subst he
          exact ⟨rfl, rfl⟩
      · simp only [hready, Bool.false_eq_true, if_false]
        refine ⟨[Ev.awaitPoint] ++
          (List.filter (fun t => (mget hb t.id).isSome && t.url.isSome)
            (List.filter (fun t => t.url.isSome) s.tracks)).map
              (fun t => Ev.decodeSettled t.id (ready t.id)),
          [], [], by simp, ?_, by simp, by simp⟩
        intro e he
        simp only [List.mem_append, List.mem_singleton, List.mem_map] at he
        rcases he with rfl | ⟨t, _, rfl⟩ <;> rfl

theorem decomposition_indices (P M Q : List Ev)
    (hP : ∀ e ∈ P, e.isStarted = false)
    (hM : ∀ e ∈ M, e.isAwaitPoint = false ∧ e.isDecodeSettled = false)
    (hQ : ∀ e ∈ Q, e.isStarted = false ∧ e.isDecodeSettled = false) :
    (∀ i j : Nat, (((P ++ M ++ Q)).getD i defaultEv).isStarted = true →
      (((P ++ M ++ Q)).getD j defaultEv).isDecodeSettled = true → j < i) ∧
    (∀ i k j : Nat, (((P ++ M ++ Q)).getD i defaultEv).isStarted = true →
      (((P ++ M ++ Q)).getD j defaultEv).isStarted = true → i ≤ k → k ≤ j →
      (((P ++ M ++ Q)).getD k defaultEv).isAwaitPoint = false) := by
  have hPm : ∀ k, k < P.length → ((P ++ M ++ Q).getD k defaultEv) ∈ P := by
    intro k hk
    rw [List.append_assoc, getD_append_left _ _ _ _ hk]
    exact getD_mem _ _ _ hk
  have hmid : ∀ k, P.length ≤ k → k < P.length + M.length →
      ((P ++ M ++ Q).getD k defaultEv) ∈ M := by
    intro k h1 h2
    rw [List.append_assoc, getD_append_right _ _ _ _ h1,
      getD_append_left _ _ _ _ (by omega)]
    exact getD_mem _ _ _ (by omega)
  have hQm : ∀ k, P.length + M.length ≤ k → k < P.length + M.length + Q.length →
      ((P ++ M ++ Q).getD k defaultEv) ∈ Q := by
    intro k h1 h2
    rw [List.append_assoc, getD_append_right _ _ _ _ (by omega),
      getD_append_right _ _ _ _ (by omega)]
    exact getD_mem _ _ _ (by omega)
  have hout : ∀ k, P.length + M.length + Q.length ≤ k →
      (P ++ M ++ Q).getD k defaultEv = defaultEv := by
    intro k hk
    refine getD_of_le _ _ _ ?_
    simp only [List.length_append]
    omega
  have hstart : ∀ i, ((P ++ M ++ Q).getD i defaultEv).isStarted = true →
      P.length ≤ i ∧ i < P.length + M.length := by
    intro i hi
    by_cases h1 : i < P.length
    · have hfalse := hP _ (hPm i h1)
      rw [hi] at hfalse
      exact absurd hfalse (by simp)
    · push_neg at h1
      refine ⟨h1, ?_⟩
      by_contra h2
      push_neg at h2
      by_cases h3 : i < P.length + M.length + Q.length
      · have hfalse := (hQ _ (hQm i h2 h3)).1
        rw [hi] at hfalse
        exact absurd hfalse (by simp)
      · push_neg at h3
        rw [hout i h3] at hi
        exact absurd hi (by simp [defaultEv, Ev.isStarted])
  have hsettle : ∀ j, ((P ++ M ++ Q).getD j defaultEv).isDecodeSettled = true →
      j < P.length := by
    intro j hj
    by_contra h1
    push_neg at h1
    by_cases h2 : j < P.length + M.length
    · have hfalse := (hM _ (hmid j h1 h2)).2
      rw [hj] at hfalse
      exact absurd hfalse (by simp)
    · push_neg at h2
      by_cases h3 : j < P.length + M.length + Q.length
      · have hfalse := (hQ _ (hQm j h2 h3)).2
        rw [hj] at hfalse
        exact absurd hfalse (by simp)
      · push_neg at h3
        rw [hout j h3] at hj
        exact absurd hj (by simp [defaultEv, Ev.isDecodeSettled])
  constructor
  · intro i j hi hj
    have h1 := (hstart i hi).1
    have h2 := hsettle j hj
    omega
  · intro i k j hi hj hik hkj
    have h1 := hstart i hi
    have h2 := hstart j hj
    have hk1 : P.length ≤ k := le_trans h1.1 hik
    have hk2 : k < P.length + M.length := lt_of_le_of_lt hkj h2.2
    exact (hM _ (hmid k hk1 hk2)).1

/-- **C1**: in every `playAll` call with at least one playable (url-bearing)
track, the emitted trace satisfies the synchronization barrier — every decode
settlement (success or failure) strictly precedes every voice start — and the
synchronous-issuance guarantee: between any two voice starts there is no
awaited suspension point.  This covers both the Web Audio path and the HTML5
fallback path. -/
theorem playAll_barrier_and_synchronous_start (dec : Int → Option ℚ)
    (ready : Int → Bool) (s : EngineState)
    (h : s.tracks.filter (fun t => t.url.isSome) ≠ []) :
    (∀ i j : Nat,
      (((playAll dec ready s).2).getD i defaultEv).isStarted = true →
      (((playAll dec ready s).2).getD j defaultEv).isDecodeSettled = true →
      j < i) ∧
    (∀ i k j : Nat,
      (((playAll dec ready s).2).getD i defaultEv).isStarted = true →
      (((playAll dec ready s).2).getD j defaultEv).isStarted = true →
      i ≤ k → k ≤ j →
      (((playAll dec ready s).2).getD k defaultEv).isAwaitPoint = false) := by
  obtain ⟨P, M, Q, hE, hP, hM, hQ⟩ := playAll_trace_decomposition dec ready s h
  rw [hE]
  exact decomposition_indices P M Q hP hM hQ

/-- Witness for C1: with one cached and one still-to-decode track, the trace
is `[await, settled 1, started 1, started 2]`; the settlement at index 1
precedes the start at index 2, and there is no suspension point at the
second start. -/
theorem playAll_barrier_and_synchronous_start_witness :
    (wStateDecode.tracks.filter (fun t => t.url.isSome) ≠ []) ∧ 1 < 2 ∧
    (((playAll (fun _ => some 9) (fun _ => true) wStateDecode).2).getD 3
      defaultEv).isAwaitPoint = false := by
  have h := playAll_barrier_and_synchronous_start (fun _ => some 9)
    (fun _ => true) wStateDecode (by decide)
  exact ⟨by decide, h.1 2 1 (by decide) (by decide),
    h.2 2 3 3 (by decide) (by decide) (by decide) (by decide)⟩

/-! ### C4: failure isolation in `playAll` -/

theorem decodeFold_buffers_isSome (dec : Int → Option ℚ) (ts : List Track) :
    ∀ (acc : EngineState × List Ev) (k : Int), acc.1.webAudioSupported = true →
      (mget ((ts.foldl (decodeStep dec) acc).1).buffers k).isSome =
        ((mget acc.1.buffers k).isSome ||
          ts.any (fun t => t.id == k && t.url.isSome && (dec k).isSome)) := by
  induction ts with
  | nil =>
    intro acc k _
    simp
  | cons t ts ih =>
    intro acc k hw
    rw [List.foldl_cons, List.any_cons]
    by_cases hbuf : (mget acc.1.buffers t.id).isSome = true
    · have hstep : decodeStep dec acc t = acc := by
        unfold decodeStep
        rw [if_pos hbuf]
      rw [hstep, ih acc k hw]
      by_cases hk : t.id = k
      · rw [← hk]
        simp [hbuf]
      · have hbeq : (t.id == k) = false := by simp [hk]
        simp [hbeq]
    · have hb' : (mget acc.1.buffers t.id).isSome = false := by
        simpa using hbuf
      rcases hurl : t.url with _ | u
      · have hstep : decodeStep dec acc t = acc := by
          unfold decodeStep
          rw [if_neg hbuf, hurl]
        rw [hstep, ih acc k hw]
        simp [hurl]
      · have hstep : decodeStep dec acc t =
            ((loadAudioBuffer t.id (dec t.id) acc.1).1,
              acc.2 ++ (loadAudioBuffer t.id (dec t.id) acc.1).2) := by
          unfold decodeStep
          rw [if_neg hbuf, hurl]
        rw [hstep]
        rcases hdec : dec t.id with _ | dv
        · have hload : (loadAudioBuffer t.id none acc.1).1 = acc.1 := by
            unfold loadAudioBuffer
            rw [if_neg (by simp [hw])]
          rw [ih _ k (by rw [hload]; exact hw)]
          rw [hload]
          by_cases hk : t.id = k
          · rw [← hk]
            simp [hdec, hurl, hb']
          · have hbeq : (t.id == k) = false := by simp [hk]
            simp [hbeq]
        · have hload : (loadAudioBuffer t.id (some dv) acc.1).1 =
              { acc.1 with buffers := mset acc.1.buffers t.id dv } := by
            unfold loadAudioBuffer
            rw [if_neg (by simp [hw])]
          rw [ih _ k (by rw [hload]; exact hw)]
          rw [hload]
          by_cases hk : t.id = k
          · rw [← hk]
            simp [mget_mset, hdec, hurl]
          · have hk2 : ¬ k = t.id := fun hh => hk hh.symm
            have hbeq : (t.id == k) = false := by simp [hk]
            rw [mget_mset, if_neg hk2]
            simp [hbeq]

theorem startFold_events_eq (ts : List Track) :
    ∀ (acc : EngineState × List Ev), acc.1.webAudioSupported = true →
      (ts.foldl startStep acc).2 = acc.2 ++ ts.map (fun t =>
        if t.url.isSome && (mget acc.1.buffers t.id).isSome then Ev.started t.id
        else Ev.skippedNoBuffer t.id) := by
  induction ts with
  | nil =>
    intro acc _
    simp
  | cons t ts ih =>
    intro acc hw
    rw [List.foldl_cons, List.map_cons]
    by_cases hc : (t.url.isSome && (mget acc.1.buffers t.id).isSome) = true
    · have hc' := hc
      rw [Bool.and_eq_true] at hc'
      obtain ⟨d, hd⟩ := Option.isSome_iff_exists.mp hc'.2
      have h2 : (startStep acc t).2 = acc.2 ++ [Ev.started t.id] := by
        unfold startStep
        rw [if_pos hc]
        simp only []
        unfold playTrackWebAudio
        rw [if_neg (by simp [hw]), hd]
      obtain ⟨ns, src, g, h1⟩ := startStep_state_eq acc t
      rw [ih (startStep acc t) (by rw [h1]; exact hw), h2, h1]
      rw [if_pos hc]
      simp
    · have h2 : (startStep acc t).2 = acc.2 ++ [Ev.skippedNoBuffer t.id] := by
        unfold startStep
        rw [if_neg hc]
      have h1 : (startStep acc t).1 = acc.1 := by
        unfold startStep
        rw [if_neg hc]
      rw [ih (startStep acc t) (by rw [h1]; exact hw), h2, h1]
      rw [if_neg hc]
      simp

theorem decodePhase_no_skipped (dec : Int → Option ℚ) (ts : List Track)
    (s0 : EngineState) (e : Ev) (he : e ∈ (decodePhase dec ts s0).2) :
    e.isSkipped = false := by
  rw [decodePhase] at he
  rcases foldl_acc_events _ _ (decodeStep_events dec) ts (s0, []) e he with h0 | hP
  · exact absurd h0 (List.not_mem_nil e)
  · rcases hP with rfl | ⟨i, ok, rfl⟩ <;> rfl

theorem filter_isStarted_map (ts : List Track) (c : Track → Bool) :
    (ts.map (fun t => if c t then Ev.started t.id
        else Ev.skippedNoBuffer t.id)).filter (fun e => e.isStarted) =
      (ts.filter c).map (fun t => Ev.started t.id) := by
  induction ts with
  | nil => rfl
  | cons t ts ih =>
    rw [List.map_cons]
    by_cases hc : c t = true
    · rw [if_pos hc, List.filter_cons_of_pos rfl, ih,
        List.filter_cons_of_pos hc, List.map_cons]
    · rw [if_neg hc, List.filter_cons_of_neg Bool.false_ne_true, ih,
        List.filter_cons_of_neg hc]

theorem filter_isSkipped_map (ts : List Track) (c : Track → Bool) :
    (ts.map (fun t => if c t then Ev.started t.id
        else Ev.skippedNoBuffer t.id)).filter (fun e => e.isSkipped) =
      (ts.filter (fun t => !c t)).map (fun t => Ev.skippedNoBuffer t.id) := by
  induction ts with
  | nil => rfl
  | cons t ts ih =>
    rw [List.map_cons]
    by_cases hc : c t = true
    · rw [if_pos hc, List.filter_cons_of_neg Bool.false_ne_true, ih,
        List.filter_cons_of_neg (by simp [hc])]
    · rw [if_neg hc, List.filter_cons_of_pos rfl, ih,
        List.filter_cons_of_pos (by simp [hc]), List.map_cons]

theorem any_same_id (ts : List Track) (t : Track) (ht : t ∈ ts)
    (hurl : t.url.isSome = true) (b : Bool) :
    ts.any (fun t' => t'.id == t.id && t'.url.isSome && b) = b := by
  cases b
  · simp
  · simp only [Bool.and_true]
    rw [List.any_eq_true]
    exact ⟨t, ht, by simp [hurl]⟩

theorem filter_eq_nil_of_false {l : List Ev} {p : Ev → Bool}
    (h : ∀ e ∈ l, p e = false) : l.filter p = [] := by
  induction l with
  | nil => rfl
  | cons e l ih =>
    rw [List.filter_cons_of_neg (by simp [h e (List.mem_cons_self e l)]),
      ih (fun x hx => h x (List.mem_cons_of_mem e hx))]

theorem webTrace_filters (dec : Int → Option ℚ) (pl : List Track)
    (S2 : EngineState) (hw2 : S2.webAudioSupported = true)
    (hpl : ∀ t ∈ pl, t.url.isSome = true) :
    ((decodePhase dec pl S2).2).filter (fun e => e.isStarted) = [] ∧
    ((startPhase pl (decodePhase dec pl S2).1).2).filter (fun e => e.isStarted) =
      (pl.filter (fun t => (mget S2.buffers t.id).isSome || (dec t.id).isSome)).map
        (fun t => Ev.started t.id) ∧
    ((decodePhase dec pl S2).2).filter (fun e => e.isSkipped) = [] ∧
    ((startPhase pl (decodePhase dec pl S2).1).2).filter (fun e => e.isSkipped) =
      (pl.filter (fun t =>
        !((mget S2.buffers t.id).isSome || (dec t.id).isSome))).map
          (fun t => Ev.skippedNoBuffer t.id) := by
  obtain ⟨B, hB⟩ := decodeFold_state_eq dec pl (S2, [])
  have hd1w : (decodePhase dec pl S2).1.webAudioSupported = true := by
    rw [decodePhase, hB]
    exact hw2
  have hst : (startPhase pl (decodePhase dec pl S2).1).2 =
      [] ++ pl.map (fun t =>
        if t.url.isSome && (mget (decodePhase dec pl S2).1.buffers t.id).isSome
        then Ev.started t.id else Ev.skippedNoBuffer t.id) := by
    rw [startPhase]
    exact startFold_events_eq pl ((decodePhase dec pl S2).1, []) hd1w
  have hcongr : ∀ t ∈ pl,
      (t.url.isSome && (mget (decodePhase dec pl S2).1.buffers t.id).isSome) =
        ((mget S2.buffers t.id).isSome || (dec t.id).isSome) := by
    intro t ht
    rw [hpl t ht, Bool.true_and, decodePhase,
      decodeFold_buffers_isSome dec pl (S2, []) t.id hw2,
      any_same_id pl t ht (hpl t ht)]
  refine ⟨filter_eq_nil_of_false
      (fun e he => decodePhase_no_started dec pl S2 e he), ?_,
    filter_eq_nil_of_false
      (fun e he => decodePhase_no_skipped dec pl S2 e he), ?_⟩
  · rw [hst, List.nil_append, filter_isStarted_map, List.filter_congr hcongr]
  · rw [hst, List.nil_append, filter_isSkipped_map,
      List.filter_congr (fun t ht => by rw [hcongr t ht])]

/-- **C4**: when exactly one playable track's decode fails in `playAll` (Web
Audio path) while the others succeed (already cached or decoding
successfully), exactly the successful tracks' voices are started — one
`started` per successful track, in order — and exactly one per-track failure
report (`skippedNoBuffer`) is emitted, naming the failed track: the failure
is isolated and never aborts the other tracks' start. -/
theorem playAll_isolates_failures (dec : Int → Option ℚ) (ready : Int → Bool)
    (s : EngineState) (hw : s.webAudioSupported = true) (f : Track)
    (hfail : (s.tracks.filter (fun t => t.url.isSome)).filter
        (fun t => !((mget s.buffers t.id).isSome || (dec t.id).isSome)) = [f]) :
    ((playAll dec ready s).2).filter (fun e => e.isStarted) =
      ((s.tracks.filter (fun t => t.url.isSome)).filter
        (fun t => (mget s.buffers t.id).isSome || (dec t.id).isSome)).map
          (fun t => Ev.started t.id) ∧
    ((playAll dec ready s).2).filter (fun e => e.isSkipped) =
      [Ev.skippedNoBuffer f.id] := by
  have hne : (s.tracks.filter (fun t => t.url.isSome)).isEmpty = false := by
    rcases hl : s.tracks.filter (fun t => t.url.isSome) with _ | ⟨a, l⟩
    · rw [hl] at hfail
      exact absurd hfail (by simp)
    · rw [hl]
      rfl
  have hpl : ∀ t ∈ s.tracks.filter (fun t => t.url.isSome),
      t.url.isSome = true := fun t ht => (List.mem_filter.1 ht).2
  obtain ⟨ha, hs1⟩ := pauseHtmlFold_eq s.tracks s
  simp only [playAll, hne, Bool.false_eq_true, if_false, hs1]
  cases hctx : s.ctxSuspended with
  | true =>
    simp only [hw, hctx, Bool.and_self, if_true]
    obtain ⟨w1, w2, w3, w4⟩ := webTrace_filters dec
      (s.tracks.filter (fun t => t.url.isSome))
      { s with isPlayingAll := true, webAudioSupported := true,
               ctxSuspended := false, htmlAudios := ha } rfl hpl
    constructor
    · rw [List.filter_append, List.filter_append, w1, w2]
      rfl
    · rw [List.filter_append, List.filter_append, w3, w4]
      show ((s.tracks.filter (fun t => t.url.isSome)).filter
        (fun t => !((mget s.buffers t.id).isSome || (dec t.id).isSome))).map
          (fun t => Ev.skippedNoBuffer t.id) = [Ev.skippedNoBuffer f.id]
      rw [hfail]
      rfl
  | false =>
    simp only [hw, hctx, Bool.and_false, Bool.false_eq_true, if_false, if_true]
    obtain ⟨w1, w2, w3, w4⟩ := webTrace_filters dec
      (s.tracks.filter (fun t => t.url.isSome))
      { s with isPlayingAll := true, webAudioSupported := true,
               ctxSuspended := false, htmlAudios := ha } rfl hpl
    constructor
    · rw [List.filter_append, List.nil_append, w1, w2]
      rfl
    · rw [List.filter_append, List.nil_append, w3, w4]
      show ((s.tracks.filter (fun t => t.url.isSome)).filter
        (fun t => !((mget s.buffers t.id).isSome || (dec t.id).isSome))).map
          (fun t => Ev.skippedNoBuffer t.id) = [Ev.skippedNoBuffer f.id]
      rw [hfail]
      rfl

/-- Witness for C4: of the two playable tracks, track 2's buffer is cached
and track 1's decode fails; exactly one voice (track 2) starts and exactly
one failure report (track 1) is emitted. -/
theorem playAll_isolates_failures_witness :
    wStateDecode.webAudioSupported = true ∧
    ((playAll (fun _ => none) (fun _ => true) wStateDecode).2).filter
      (fun e => e.isStarted) = [Ev.started 2] ∧
    ((playAll (fun _ => none) (fun _ => true) wStateDecode).2).filter
      (fun e => e.isSkipped) = [Ev.skippedNoBuffer 1] := by
  have h := playAll_isolates_failures (fun _ => none) (fun _ => true)
    wStateDecode rfl (readyTrack "Piano" 1) (by decide)
  refine ⟨rfl, ?_, ?_⟩
  · rw [h.1]
    decide
  · rw [h.2]
    decide

/-! ### C6: at most one active playback node per track -/

theorem nodesInv_of_frame {s s' : EngineState} (hn : s'.nodes = s.nodes)
    (hs : s'.sources = s.sources) (h : NodesInv s) : NodesInv s' := by
  unfold NodesInv SourcesInv SourcesBound at h ⊢
  rw [hn, hs]
  exact h

theorem nodesInv_playTrack (i : Int) (m : Bool) (s : EngineState)
    (h : NodesInv s) : NodesInv (playTrackWebAudio i m s).1 := by
  obtain ⟨h1, h2⟩ := h
  unfold playTrackWebAudio
  by_cases hw : s.webAudioSupported = true
  · rw [if_neg (by simp [hw])]
    rcases hbuf : mget s.buffers i with _ | d
    · exact ⟨h1, h2⟩
    · rcases hsrc : mget s.sources i with _ | k
      · simp only []
        constructor
        · intro j hj
          by_cases hjl : j < s.nodes.length
          · rw [getD_append_left _ _ _ _ hjl] at hj ⊢
            have hor := h1 j hj
            have htr : (s.nodes.getD j defaultSourceNode).track ≠ i := by
              intro he
              rw [he, hsrc] at hor
              exact absurd hor (by simp)
            rw [mget_mset, if_neg htr]
            exact hor
          · push_neg at hjl
            by_cases hje : j = s.nodes.length
            · subst hje
              rw [getD_append_right _ _ _ _ (le_refl _)] at hj ⊢
              simp only [Nat.sub_self, List.getD_cons_zero] at hj ⊢
              simp [mget_mset]
            · have : s.nodes.length + 1 ≤ j := by omega
              rw [getD_of_le _ _ _ (by simp [this])] at hj
              exact absurd hj (by simp [defaultSourceNode])
        · intro tr k2 hk2
          rw [List.length_append, List.length_singleton]
          rw [mget_mset] at hk2
          by_cases he : tr = i
          · rw [if_pos he] at hk2
            have : k2 = s.nodes.length := by
              have := Option.some_inj.mp hk2
              omega
            omega
          · rw [if_neg he] at hk2
            have := h2 tr k2 hk2
            omega
      · simp only []
        constructor
        · intro j hj
          have hlen : (stopNodeAt s.nodes k).length = s.nodes.length :=
            stopNodeAt_length s.nodes k
          by_cases hjl : j < s.nodes.length
          · rw [getD_append_left _ _ _ _ (by rw [hlen]; exact hjl)] at hj ⊢
            by_cases hjk : j = k
            · subst hjk
              rw [stopNodeAt_playing_self] at hj
              exact absurd hj (by simp)
            · rw [stopNodeAt_getD_ne _ _ _ _ hjk] at hj ⊢
              have hor := h1 j hj
              have htr : (s.nodes.getD j defaultSourceNode).track ≠ i := by
                intro he
                rw [he, hsrc] at hor
                have : j = k := by
                  have := Option.some_inj.mp hor
                  omega
                exact hjk this
              rw [mget_mset, if_neg htr, mget_mdel, if_neg htr]
              exact hor
          · push_neg at hjl
            by_cases hje : j = s.nodes.length
            · subst hje
              rw [getD_append_right _ _ _ _ (le_of_eq hlen)] at hj ⊢
              rw [hlen] at hj ⊢
              simp only [Nat.sub_self, List.getD_cons_zero] at hj ⊢
              simp [mget_mset, stopNodeAt_length]
            · rw [getD_of_le _ _ _ (by
                rw [List.length_append, List.length_singleton, hlen]
                omega)] at hj
              exact absurd hj (by simp [defaultSourceNode])
        · intro tr k2 hk2
          rw [List.length_append, List.length_singleton, stopNodeAt_length]
          rw [mget_mset] at hk2
          by_cases he : tr = i
          · rw [if_pos he] at hk2
            have h3 := Option.some_inj.mp hk2
            rw [stopNodeAt_length] at h3
            omega
          · rw [if_neg he, mget_mdel, if_neg he] at hk2
            have := h2 tr k2 hk2
            omega
  · rw [if_pos (by simp [hw])]
    exact ⟨h1, h2⟩

theorem nodesInv_stopTrack (i : Int) (s : EngineState) (h : NodesInv s) :
    NodesInv (stopTrackWebAudio i s) := by
  obtain ⟨h1, h2⟩ := h
  unfold stopTrackWebAudio
  rcases hsrc : mget s.sources i with _ | k
  · exact ⟨h1, h2⟩
  · constructor
    · intro j hj
      simp only [] at hj ⊢
      by_cases hjk : j = k
      · subst hjk
        rw [stopNodeAt_playing_self] at hj
        exact absurd hj (by simp)
      · rw [stopNodeAt_getD_ne _ _ _ _ hjk] at hj ⊢
        have hor := h1 j hj
        have htr : (s.nodes.getD j defaultSourceNode).track ≠ i := by
          intro he
          rw [he, hsrc] at hor
          have : j = k := by
            have := Option.some_inj.mp hor
            omega
          exact hjk this
        rw [mget_mdel, if_neg htr]
        exact hor
    · intro tr k2 hk2
      simp only [] at hk2 ⊢
      rw [mget_mdel] at hk2
      by_cases he : tr = i
      · rw [if_pos he] at hk2
        exact absurd hk2 (by simp)
      · rw [if_neg he] at hk2
        rw [stopNodeAt_length]
        exact h2 tr k2 hk2

theorem stopHtmlStep_eq (s : EngineState) (t : Track) :
    ∃ ha lh, stopHtmlStep s t =
      { s with htmlAudios := ha, loopHandlers := lh } := by
  unfold stopHtmlStep
  rcases mget s.htmlAudios t.id with _ | el
  · exact ⟨s.htmlAudios, s.loopHandlers, rfl⟩
  · rcases t.url with _ | u
    · exact ⟨s.htmlAudios, s.loopHandlers, rfl⟩
    · exact ⟨_, _, rfl⟩

theorem nodesInv_foldl {step : EngineState → Track → EngineState}
    (hstep : ∀ s t, (step s t).nodes = s.nodes ∧ (step s t).sources = s.sources) :
    ∀ (ts : List Track) (s : EngineState), NodesInv s →
      NodesInv (ts.foldl step s) := by
  intro ts
  induction ts with
  | nil => exact fun s h => h
  | cons t ts ih =>
    intro s h
    rw [List.foldl_cons]
    exact ih _ (nodesInv_of_frame (hstep s t).1 (hstep s t).2 h)

theorem pauseHtmlStep_frame (s : EngineState) (t : Track) :
    (pauseHtmlStep s t).nodes = s.nodes ∧
    (pauseHtmlStep s t).sources = s.sources := by
  obtain ⟨ha, h⟩ := pauseHtmlStep_eq s t
  rw [h]
  exact ⟨rfl, rfl⟩

theorem fallbackPrepareStep_frame (s : EngineState) (t : Track) :
    (fallbackPrepareStep s t).nodes = s.nodes ∧
    (fallbackPrepareStep s t).sources = s.sources := by
  obtain ⟨ha, h⟩ := fallbackPrepareStep_eq s t
  rw [h]
  exact ⟨rfl, rfl⟩

theorem fallbackPlayStep_frame (s : EngineState) (t : Track) :
    (fallbackPlayStep s t).nodes = s.nodes ∧
    (fallbackPlayStep s t).sources = s.sources := by
  obtain ⟨ha, h⟩ := fallbackPlayStep_eq s t
  rw [h]
  exact ⟨rfl, rfl⟩

theorem stopHtmlStep_frame (s : EngineState) (t : Track) :
    (stopHtmlStep s t).nodes = s.nodes ∧
    (stopHtmlStep s t).sources = s.sources := by
  obtain ⟨ha, lh, h⟩ := stopHtmlStep_eq s t
  rw [h]
  exact ⟨rfl, rfl⟩

theorem nodesInv_startFold (ts : List Track) :
    ∀ acc : EngineState × List Ev, NodesInv acc.1 →
      NodesInv ((ts.foldl startStep acc).1) := by
  induction ts with
  | nil => exact fun acc h => h
  | cons t ts ih =>
    intro acc h
    rw [List.foldl_cons]
    apply ih
    by_cases hc : (t.url.isSome && (mget acc.1.buffers t.id).isSome) = true
    · have h1 : (startStep acc t).1 = (playTrackWebAudio t.id t.muted acc.1).1 := by
        unfold startStep
        rw [if_pos hc]
      rw [h1]
      exact nodesInv_playTrack _ _ _ h
    · have h1 : (startStep acc t).1 = acc.1 := by
        unfold startStep
        rw [if_neg hc]
      rw [h1]
      exact h

theorem nodesInv_stopWebFold (ts : List Track) :
    ∀ s : EngineState, NodesInv s → NodesInv (ts.foldl stopWebStep s) := by
  induction ts with
  | nil => exact fun s h => h
  | cons t ts ih =>
    intro s h
    rw [List.foldl_cons]
    exact ih _ (nodesInv_stopTrack t.id s h)


theorem nodesInv_playAll (dec : Int → Option ℚ) (ready : Int → Bool)
    (s : EngineState) (h : NodesInv s) : NodesInv (playAll dec ready s).1 := by
  cases hE : (s.tracks.filter (fun t => t.url.isSome)).isEmpty with
  | true =>
    simp only [playAll, hE, if_true]
    exact h
  | false =>
    obtain ⟨ha, hs1⟩ := pauseHtmlFold_eq s.tracks s
    simp only [playAll, hE, Bool.false_eq_true, if_false, hs1]
    cases hw : s.webAudioSupported with
    | true =>
      cases hctx : s.ctxSuspended with
      | true =>
        simp only [hw, hctx, Bool.and_self, if_true, startPhase, decodePhase]
        refine nodesInv_startFold _ _ ?_
        obtain ⟨B, hB⟩ := decodeFold_state_eq dec
          (s.tracks.filter (fun t => t.url.isSome))
          ({ s with isPlayingAll := true, webAudioSupported := true,
                    ctxSuspended := false, htmlAudios := ha }, [])
        rw [hB]
        exact nodesInv_of_frame rfl rfl h
      | false =>
        simp only [hw, hctx, Bool.and_false, Bool.false_eq_true, if_false,
          if_true, startPhase, decodePhase]
        refine nodesInv_startFold _ _ ?_
        obtain ⟨B, hB⟩ := decodeFold_state_eq dec
          (s.tracks.filter (fun t => t.url.isSome))
          ({ s with isPlayingAll := true, webAudioSupported := true,
                    ctxSuspended := false, htmlAudios := ha }, [])
        rw [hB]
        exact nodesInv_of_frame rfl rfl h
    | false =>
      simp only [hw, Bool.false_and, Bool.false_eq_true, if_false]
      have hS3 := nodesInv_foldl fallbackPrepareStep_frame
        (s.tracks.filter (fun t => t.url.isSome))
        ({ s with isPlayingAll := true, webAudioSupported := false,
                  htmlAudios := ha })
        (nodesInv_of_frame rfl rfl h)
      by_cases helems : (List.filter
          (fun t => (mget (List.foldl fallbackPrepareStep
            { s with isPlayingAll := true, webAudioSupported := false,
                     htmlAudios := ha }
            (List.filter (fun t => t.url.isSome) s.tracks)).htmlAudios
              t.id).isSome && t.url.isSome)
          (List.filter (fun t => t.url.isSome) s.tracks)).isEmpty = true
      · simp only [helems, if_true]
        exact hS3
      · simp only [helems, Bool.false_eq_true, if_false]
        by_cases hready : (List.filter
            (fun t => (mget (List.foldl fallbackPrepareStep
              { s with isPlayingAll := true, webAudioSupported := false,
                       htmlAudios := ha }
              (List.filter (fun t => t.url.isSome) s.tracks)).htmlAudios
                t.id).isSome && t.url.isSome)
            (List.filter (fun t => t.url.isSome) s.tracks)).all
              (fun t => ready t.id) = true
        · simp only [hready, if_true]
          exact nodesInv_foldl fallbackPlayStep_frame _ _ hS3
        · simp only [hready, Bool.false_eq_true, if_false]
          exact hS3

theorem addTrackStart_frame (inst : String) (style : Option String)
    (newId : Int) (s : EngineState) :
    (addTrackStart inst style newId s).1.nodes = s.nodes ∧
    (addTrackStart inst style newId s).1.sources = s.sources := by
  simp only [addTrackStart]
  split
  · exact ⟨rfl, rfl⟩
  · exact ⟨rfl, rfl⟩

theorem addTrackResume_frame (i : Int) (url : Option String) (dec : Option ℚ)
    (s : EngineState) :
    (addTrackResume i url dec s).1.nodes = s.nodes ∧
    (addTrackResume i url dec s).1.sources = s.sources := by
  simp only [addTrackResume]
  rcases url with _ | u
  · exact ⟨rfl, rfl⟩
  · simp only []
    split
    · obtain ⟨b, hb⟩ := loadAudioBuffer_state_eq i dec
        { s with tracks := s.tracks.map fun t =>
                             if t.id = i then { t with url := some u } else t }
      rw [hb]
      exact ⟨rfl, rfl⟩
    · exact ⟨rfl, rfl⟩

theorem toggleMute_nodes_sources (i : Int) (s : EngineState) :
    (toggleMute i s).nodes = s.nodes ∧ (toggleMute i s).sources = s.sources := by
  simp only [toggleMute]
  split
  · exact ⟨(toggleMuteWebAudio_nodes _ _ _).trans rfl,
      (toggleMuteWebAudio_sources _ _ _).trans rfl⟩
  · split
    · exact ⟨rfl, rfl⟩
    · exact ⟨rfl, rfl⟩

theorem changeBPM_frame (b : ℚ) (c : Bool) (s : EngineState) :
    (changeBPM b c s).nodes = s.nodes ∧ (changeBPM b c s).sources = s.sources := by
  simp only [changeBPM]
  split
  · split
    · exact ⟨rfl, rfl⟩
    · exact ⟨rfl, rfl⟩
  · exact ⟨rfl, rfl⟩

theorem attachElement_frame (i : Int) (s : EngineState) :
    (attachElement i s).nodes = s.nodes ∧
    (attachElement i s).sources = s.sources := by
  simp only [attachElement]
  split
  · split
    · split
      · exact ⟨rfl, rfl⟩
      · exact ⟨rfl, rfl⟩
    · exact ⟨rfl, rfl⟩
  · exact ⟨rfl, rfl⟩

theorem nodesInv_removeTrack (i : Int) (s : EngineState) (h : NodesInv s) :
    NodesInv (removeTrack i s) := by
  simp only [removeTrack]
  split
  · exact h
  · split <;> split <;>
      first
        | exact nodesInv_of_frame rfl rfl (nodesInv_stopTrack i s h)
        | exact nodesInv_of_frame rfl rfl h

theorem nodesInv_stopAll (s : EngineState) (h : NodesInv s) :
    NodesInv (stopAll s) := by
  simp only [stopAll]
  refine nodesInv_foldl stopHtmlStep_frame _ _ ?_
  split
  · exact nodesInv_stopWebFold _ _ (nodesInv_of_frame rfl rfl h)
  · exact nodesInv_of_frame rfl rfl h

theorem nodesInv_applyOp (s : EngineState) (op : Op) (h : NodesInv s) :
    NodesInv (applyOp s op) := by
  cases op with
  | addStart inst style newId =>
    exact nodesInv_of_frame (addTrackStart_frame inst style newId s).1
      (addTrackStart_frame inst style newId s).2 h
  | addResume i url dec =>
    exact nodesInv_of_frame (addTrackResume_frame i url dec s).1
      (addTrackResume_frame i url dec s).2 h
  | doPlayAll dec ready => exact nodesInv_playAll dec ready s h
  | doStopAll => exact nodesInv_stopAll s h
  | doToggleMute i =>
    exact nodesInv_of_frame (toggleMute_nodes_sources i s).1
      (toggleMute_nodes_sources i s).2 h
  | doRemoveTrack i => exact nodesInv_removeTrack i s h
  | doChangeBPM b c =>
    exact nodesInv_of_frame (changeBPM_frame b c s).1 (changeBPM_frame b c s).2 h
  | doAttachElement i =>
    exact nodesInv_of_frame (attachElement_frame i s).1
      (attachElement_frame i s).2 h

theorem nodesInv_initState (webAudio : Bool) : NodesInv (initState webAudio) := by
  constructor
  · intro i hi
    rw [getD_of_le _ _ _ (by exact Nat.zero_le i)] at hi
    exact absurd hi (by simp [defaultSourceNode])
  · intro tr k hk
    exact absurd hk (by simp [initState, mget])

theorem nodesInv_foldOps (l : List Op) :
    ∀ s : EngineState, NodesInv s → NodesInv (l.foldl applyOp s) := by
  induction l with
  | nil => exact fun s h => h
  | cons op l ih =>
    intro s h
    rw [List.foldl_cons]
    exact ih _ (nodesInv_applyOp s op h)

theorem nodesInv_run (webAudio : Bool) (ops : List Op) :
    NodesInv (run webAudio ops) :=
  nodesInv_foldOps ops _ (nodesInv_initState webAudio)

/-- **C6**: for every track at most one active playback source node exists at
a time — in every reachable state no two distinct entries of the node log are
simultaneously playing for the same track — and a `playTrackWebAudio` call
that starts a track anew while the `sources` ref still holds a previous node
(log index `k`) first stops that node (`playing = false` at `k` afterwards)
and appends exactly one fresh playing node for the track, after which the
one-voice-per-track property holds again. -/
theorem run_no_double_audio (webAudio : Bool) (ops : List Op) (trackId : Int)
    (m : Bool) (dur : ℚ) (k : Nat)
    (hw : (run webAudio ops).webAudioSupported = true)
    (hbuf : mget (run webAudio ops).buffers trackId = some dur)
    (hsrc : mget (run webAudio ops).sources trackId = some k) :
    (∀ i j : Nat,
        ((run webAudio ops).nodes.getD i defaultSourceNode).playing = true →
        ((run webAudio ops).nodes.getD j defaultSourceNode).playing = true →
        ((run webAudio ops).nodes.getD i defaultSourceNode).track =
          ((run webAudio ops).nodes.getD j defaultSourceNode).track →
        i = j) ∧
    ((playTrackWebAudio trackId m (run webAudio ops)).1.nodes.getD k
        defaultSourceNode).playing = false ∧
    (∃ n : SourceNode,
        (playTrackWebAudio trackId m (run webAudio ops)).1.nodes =
          stopNodeAt (run webAudio ops).nodes k ++ [n] ∧
        n.track = trackId ∧ n.playing = true) ∧
    (∀ i j : Nat,
        ((playTrackWebAudio trackId m (run webAudio ops)).1.nodes.getD i
          defaultSourceNode).playing = true →
        ((playTrackWebAudio trackId m (run webAudio ops)).1.nodes.getD j
          defaultSourceNode).playing = true →
        ((playTrackWebAudio trackId m (run webAudio ops)).1.nodes.getD i
          defaultSourceNode).track =
          ((playTrackWebAudio trackId m (run webAudio ops)).1.nodes.getD j
            defaultSourceNode).track →
        i = j) := by
  have hinv := nodesInv_run webAudio ops
  have huniq : ∀ (s : EngineState), SourcesInv s → ∀ i j : Nat,
      (s.nodes.getD i defaultSourceNode).playing = true →
      (s.nodes.getD j defaultSourceNode).playing = true →
      (s.nodes.getD i defaultSourceNode).track =
        (s.nodes.getD j defaultSourceNode).track → i = j := by
    intro s hs i j hi hj htr
    have h1 := hs i hi
    have h2 := hs j hj
    rw [htr] at h1
    rw [h1] at h2
    exact Option.some.inj h2
  have hk : k < (run webAudio ops).nodes.length := hinv.2 trackId k hsrc
  have hnodes : (playTrackWebAudio trackId m (run webAudio ops)).1.nodes =
      stopNodeAt (run webAudio ops).nodes k ++
        [{ track := trackId, bufferDuration := dur, loop := true,
           loopStart := 0,
           loopEnd := if dur > MAX_LOOP_DURATION then MAX_LOOP_DURATION else 0,
           playing := true }] := by
    unfold playTrackWebAudio
    rw [if_neg (by simp [hw])]
    simp only [hbuf, hsrc]
  refine ⟨huniq _ hinv.1, ?_, ?_, ?_⟩
  · rw [hnodes,
      getD_append_left _ _ _ _ (by rw [stopNodeAt_length]; exact hk)]
    exact stopNodeAt_playing_self _ _
  · exact ⟨_, hnodes, rfl, rfl⟩
  · exact huniq _ (nodesInv_playTrack trackId m (run webAudio ops) hinv).1

/-- C6 witness: the concrete session `wOps` reaches a state with a cached 9 s
buffer and one registered voice (log index 0) for track 1, and restarting
track 1 there stops that previous node. -/
theorem run_no_double_audio_witness :
    ((run true wOps).webAudioSupported = true ∧
      mget (run true wOps).buffers 1 = some 9 ∧
      mget (run true wOps).sources 1 = some 0) ∧
    ((playTrackWebAudio 1 false (run true wOps)).1.nodes.getD 0
        defaultSourceNode).playing = false :=
  ⟨⟨by decide, by decide, by decide⟩,
    (run_no_double_audio true wOps 1 false 9 0 (by decide) (by decide)
      (by decide)).2.1⟩

/-! ### C8: stopAll stops every voice and is idempotent -/

theorem stopTrackWebAudio_state_eq (i : Int) (s : EngineState) :
    ∃ ns src g, stopTrackWebAudio i s =
      { s with nodes := ns, sources := src, gains := g } := by
  unfold stopTrackWebAudio
  rcases mget s.sources i with _ | k
  · exact ⟨s.nodes, s.sources, s.gains, rfl⟩
  · exact ⟨_, _, _, rfl⟩

theorem stopWebFold_eq (ts : List Track) :
    ∀ s : EngineState, ∃ ns src g, ts.foldl stopWebStep s =
      { s with nodes := ns, sources := src, gains := g } := by
  induction ts with
  | nil => exact fun s => ⟨s.nodes, s.sources, s.gains, rfl⟩
  | cons t ts ih =>
    intro s
    have hst : stopWebStep s t = stopTrackWebAudio t.id s := rfl
    obtain ⟨x, y, z, hx⟩ := stopTrackWebAudio_state_eq t.id s
    obtain ⟨ns, src, g, hb⟩ := ih (stopWebStep s t)
    rw [hst, hx] at hb
    exact ⟨ns, src, g, by rw [List.foldl_cons, hst, hx]; exact hb⟩

theorem stopHtmlFold_eq (ts : List Track) :
    ∀ s : EngineState, ∃ ha lh, ts.foldl stopHtmlStep s =
      { s with htmlAudios := ha, loopHandlers := lh } := by
  induction ts with
  | nil => exact fun s => ⟨s.htmlAudios, s.loopHandlers, rfl⟩
  | cons t ts ih =>
    intro s
    obtain ⟨x, y, hx⟩ := stopHtmlStep_eq s t
    obtain ⟨ha, lh, hb⟩ := ih (stopHtmlStep s t)
    rw [hx] at hb
    exact ⟨ha, lh, by rw [List.foldl_cons, hx]; exact hb⟩

theorem stopWebFold_tracks (ts : List Track) (s : EngineState) :
    (ts.foldl stopWebStep s).tracks = s.tracks := by
  obtain ⟨ns, src, g, h⟩ := stopWebFold_eq ts s
  rw [h]

theorem stopWebFold_isPlayingAll (ts : List Track) (s : EngineState) :
    (ts.foldl stopWebStep s).isPlayingAll = s.isPlayingAll := by
  obtain ⟨ns, src, g, h⟩ := stopWebFold_eq ts s
  rw [h]

theorem stopWebFold_web (ts : List Track) (s : EngineState) :
    (ts.foldl stopWebStep s).webAudioSupported = s.webAudioSupported := by
  obtain ⟨ns, src, g, h⟩ := stopWebFold_eq ts s
  rw [h]

theorem stopHtmlFold_tracks (ts : List Track) (s : EngineState) :
    (ts.foldl stopHtmlStep s).tracks = s.tracks := by
  obtain ⟨ha, lh, h⟩ := stopHtmlFold_eq ts s
  rw [h]

theorem stopHtmlFold_isPlayingAll (ts : List Track) (s : EngineState) :
    (ts.foldl stopHtmlStep s).isPlayingAll = s.isPlayingAll := by
  obtain ⟨ha, lh, h⟩ := stopHtmlFold_eq ts s
  rw [h]

theorem stopHtmlFold_web (ts : List Track) (s : EngineState) :
    (ts.foldl stopHtmlStep s).webAudioSupported = s.webAudioSupported := by
  obtain ⟨ha, lh, h⟩ := stopHtmlFold_eq ts s
  rw [h]

theorem stopHtmlFold_sources (ts : List Track) (s : EngineState) :
    (ts.foldl stopHtmlStep s).sources = s.sources := by
  obtain ⟨ha, lh, h⟩ := stopHtmlFold_eq ts s
  rw [h]

theorem stopTrack_noop (i : Int) (u : EngineState)
    (hu : mget u.sources i = none) : stopTrackWebAudio i u = u := by
  unfold stopTrackWebAudio
  rw [hu]

theorem stopTrack_sources_self (i : Int) (s : EngineState) :
    mget (stopTrackWebAudio i s).sources i = none := by
  unfold stopTrackWebAudio
  cases hk : mget s.sources i with
  | none => exact hk
  | some k => simp [mget_mdel]

theorem stopTrack_sources_none (i x : Int) (s : EngineState)
    (h : mget s.sources x = none) :
    mget (stopTrackWebAudio i s).sources x = none := by
  unfold stopTrackWebAudio
  cases hk : mget s.sources i with
  | none => exact h
  | some k => simp [mget_mdel, h]

theorem stopWebFold_sources_none (ts : List Track) :
    ∀ (s : EngineState) (x : Int), mget s.sources x = none →
      mget (ts.foldl stopWebStep s).sources x = none := by
  induction ts with
  | nil => exact fun s x h => h
  | cons t ts ih =>
    intro s x h
    rw [List.foldl_cons]
    exact ih _ _ (stopTrack_sources_none t.id x s h)

theorem stopWebFold_stops (ts : List Track) :
    ∀ (s : EngineState) (t : Track), t ∈ ts →
      mget (ts.foldl stopWebStep s).sources t.id = none := by
  induction ts with
  | nil => exact fun s t ht => absurd ht (List.not_mem_nil t)
  | cons t0 ts ih =>
    intro s t ht
    rw [List.foldl_cons]
    rcases List.mem_cons.1 ht with rfl | hmem
    · exact stopWebFold_sources_none ts _ t.id (stopTrack_sources_self t.id s)
    · exact ih _ t hmem

theorem stopWebFold_id (ts : List Track) :
    ∀ s : EngineState, (∀ t ∈ ts, mget s.sources t.id = none) →
      ts.foldl stopWebStep s = s := by
  induction ts with
  | nil => exact fun s h => rfl
  | cons t ts ih =>
    intro s h
    have hstep : stopWebStep s t = s :=
      stopTrack_noop t.id s (h t (List.mem_cons_self t ts))
    rw [List.foldl_cons, hstep]
    exact ih s (fun t2 ht2 => h t2 (List.mem_cons_of_mem t ht2))

theorem stopHtmlStep_absent (s : EngineState) (t : Track) (x : Int)
    (h : mget s.htmlAudios x = none) :
    mget (stopHtmlStep s t).htmlAudios x = none := by
  unfold stopHtmlStep
  cases hel : mget s.htmlAudios t.id with
  | none => exact h
  | some el =>
    cases hu : t.url with
    | none => exact h
    | some u =>
      have hx : x ≠ t.id := fun hh => by simp [hh, hel] at h
      simp [mget_mset, hx, h]

theorem stopHtmlFold_absent (ts : List Track) :
    ∀ (s : EngineState) (x : Int), mget s.htmlAudios x = none →
      mget (ts.foldl stopHtmlStep s).htmlAudios x = none := by
  induction ts with
  | nil => exact fun s x h => h
  | cons t ts ih =>
    intro s x h
    rw [List.foldl_cons]
    exact ih _ _ (stopHtmlStep_absent s t x h)

theorem stopHtmlStep_paused_mono (s : EngineState) (t : Track) (x : Int)
    (h : ∀ el, mget s.htmlAudios x = some el →
      el.paused = true ∧ el.currentTime = 0) :
    ∀ el, mget (stopHtmlStep s t).htmlAudios x = some el →
      el.paused = true ∧ el.currentTime = 0 := by
  unfold stopHtmlStep
  cases hel : mget s.htmlAudios t.id with
  | none => exact h
  | some el0 =>
    cases hu : t.url with
    | none => exact h
    | some u =>
      intro el hmem
      by_cases hx : x = t.id
      · subst hx
        simp [mget_mset] at hmem
        subst hmem
        exact ⟨rfl, rfl⟩
      · simp [mget_mset, hx] at hmem
        exact h el hmem

theorem stopHtmlFold_paused_mono (ts : List Track) :
    ∀ (s : EngineState) (x : Int),
      (∀ el, mget s.htmlAudios x = some el →
        el.paused = true ∧ el.currentTime = 0) →
      ∀ el, mget (ts.foldl stopHtmlStep s).htmlAudios x = some el →
        el.paused = true ∧ el.currentTime = 0 := by
  induction ts with
  | nil => exact fun s x h => h
  | cons t ts ih =>
    intro s x h
    rw [List.foldl_cons]
    exact ih _ _ (stopHtmlStep_paused_mono s t x h)

theorem stopHtmlFold_pauses (ts : List Track) :
    ∀ (s : EngineState) (t : Track), t ∈ ts → t.url.isSome = true →
      ∀ el, mget (ts.foldl stopHtmlStep s).htmlAudios t.id = some el →
        el.paused = true ∧ el.currentTime = 0 := by
  induction ts with
  | nil => exact fun s t ht => absurd ht (List.not_mem_nil t)
  | cons t0 ts ih =>
    intro s t ht hu
    rw [List.foldl_cons]
    rcases List.mem_cons.1 ht with rfl | hmem
    · refine stopHtmlFold_paused_mono ts _ t.id ?_
      unfold stopHtmlStep
      cases hel : mget s.htmlAudios t.id with
      | none =>
        intro el hmem2
        simp [hel] at hmem2
      | some el0 =>
        cases hu2 : t.url with
        | none => simp [hu2] at hu
        | some u =>
          intro el hmem2
          simp [mget_mset] at hmem2
          subst hmem2
          exact ⟨rfl, rfl⟩
    · exact ih _ t hmem hu

theorem stopHtmlStep_handler_mono (s : EngineState) (t : Track) (x : Int)
    (h : x ∉ s.loopHandlers) :
    x ∉ (stopHtmlStep s t).loopHandlers := by
  unfold stopHtmlStep
  cases hel : mget s.htmlAudios t.id with
  | none => exact h
  | some el0 =>
    cases hu : t.url with
    | none => exact h
    | some u => exact not_mem_hdel h

theorem stopHtmlFold_handler_mono (ts : List Track) :
    ∀ (s : EngineState) (x : Int), x ∉ s.loopHandlers →
      x ∉ (ts.foldl stopHtmlStep s).loopHandlers := by
  induction ts with
  | nil => exact fun s x h => h
  | cons t ts ih =>
    intro s x h
    rw [List.foldl_cons]
    exact ih _ _ (stopHtmlStep_handler_mono s t x h)

theorem stopHtmlFold_removes_handler (ts : List Track) :
    ∀ (s : EngineState) (t : Track), t ∈ ts → t.url.isSome = true →
      (mget (ts.foldl stopHtmlStep s).htmlAudios t.id).isSome = true →
      t.id ∉ (ts.foldl stopHtmlStep s).loopHandlers := by
  induction ts with
  | nil => exact fun s t ht => absurd ht (List.not_mem_nil t)
  | cons t0 ts ih =>
    intro s t ht hu hpost
    rw [List.foldl_cons] at hpost ⊢
    rcases List.mem_cons.1 ht with rfl | hmem
    · refine stopHtmlFold_handler_mono ts _ t.id ?_
      unfold stopHtmlStep
      cases hel : mget s.htmlAudios t.id with
      | none =>
        have habs : mget (stopHtmlStep s t).htmlAudios t.id = none := by
          unfold stopHtmlStep
          rw [hel]
          exact hel
        rw [stopHtmlFold_absent ts _ t.id habs] at hpost
        exact absurd hpost (by simp)
      | some el0 =>
        cases hu2 : t.url with
        | none => simp [hu2] at hu
        | some u => exact not_mem_hdel_self _ _
    · exact ih _ t hmem hu hpost

theorem stopHtmlStep_id (s : EngineState) (t : Track)
    (h : ∀ el, mget s.htmlAudios t.id = some el → t.url.isSome = true →
      el.paused = true ∧ el.currentTime = 0 ∧ t.id ∉ s.loopHandlers) :
    stopHtmlStep s t = s := by
  unfold stopHtmlStep
  cases hel : mget s.htmlAudios t.id with
  | none => rfl
  | some el =>
    cases hu : t.url with
    | none => rfl
    | some u =>
      obtain ⟨hp, hc, hlh⟩ := h el hel (by rw [hu]; rfl)
      have hel1 : ({ el with paused := true, currentTime := 0 } : HtmlAudio) =
          el := by
        cases el with
        | mk p c m => rw [show p = true from hp, show c = (0:ℚ) from hc]
      show { s with
               htmlAudios := mset s.htmlAudios t.id
                              { el with paused := true, currentTime := 0 },
               loopHandlers := hdel s.loopHandlers t.id } = s
      rw [hel1, mset_self s.htmlAudios t.id el hel, hdel_eq_self hlh]

theorem stopHtmlFold_id (ts : List Track) :
    ∀ s : EngineState,
      (∀ t ∈ ts, ∀ el, mget s.htmlAudios t.id = some el →
        t.url.isSome = true →
        el.paused = true ∧ el.currentTime = 0 ∧ t.id ∉ s.loopHandlers) →
      ts.foldl stopHtmlStep s = s := by
  induction ts with
  | nil => exact fun s h => rfl
  | cons t ts ih =>
    intro s h
    have hstep : stopHtmlStep s t = s :=
      stopHtmlStep_id s t (h t (List.mem_cons_self t ts))
    rw [List.foldl_cons, hstep]
    exact ih s (fun t2 ht2 => h t2 (List.mem_cons_of_mem t ht2))

theorem engine_set_isPlayingAll_false (s : EngineState)
    (h : s.isPlayingAll = false) : { s with isPlayingAll := false } = s := by
  cases s with
  | mk tr hist bpm ip w c bu so ga no ht lo => rw [show ip = false from h]

theorem stopAll_eq (s : EngineState) :
    stopAll s =
      (if s.webAudioSupported then
          List.foldl stopWebStep { s with isPlayingAll := false } s.tracks
        else { s with isPlayingAll := false }).tracks.foldl stopHtmlStep
        (if s.webAudioSupported then
          List.foldl stopWebStep { s with isPlayingAll := false } s.tracks
         else { s with isPlayingAll := false }) := rfl

theorem stopAll_isPlayingAll (s : EngineState) :
    (stopAll s).isPlayingAll = false := by
  rw [stopAll_eq, stopHtmlFold_isPlayingAll]
  cases hw : s.webAudioSupported with
  | true => rw [if_pos rfl, stopWebFold_isPlayingAll]
  | false => rw [if_neg (by simp)]

theorem stopAll_tracks (s : EngineState) : (stopAll s).tracks = s.tracks := by
  rw [stopAll_eq, stopHtmlFold_tracks]
  cases hw : s.webAudioSupported with
  | true => rw [if_pos rfl, stopWebFold_tracks]
  | false => rw [if_neg (by simp)]

theorem stopAll_web (s : EngineState) :
    (stopAll s).webAudioSupported = s.webAudioSupported := by
  rw [stopAll_eq, stopHtmlFold_web]
  cases hw : s.webAudioSupported with
  | true => rw [if_pos rfl, stopWebFold_web]
  | false => rw [if_neg (by simp)]

theorem stopAll_sources_none (s : EngineState)
    (hw : s.webAudioSupported = true) (t : Track) (ht : t ∈ s.tracks) :
    mget (stopAll s).sources t.id = none := by
  rw [stopAll_eq, stopHtmlFold_sources, if_pos hw]
  exact stopWebFold_stops s.tracks _ t ht

theorem stopAll_pauses (s : EngineState) (t : Track) (ht : t ∈ s.tracks)
    (hu : t.url.isSome = true) :
    ∀ el, mget (stopAll s).htmlAudios t.id = some el →
      el.paused = true ∧ el.currentTime = 0 := by
  rw [stopAll_eq]
  cases hw : s.webAudioSupported with
  | true =>
    rw [if_pos rfl]
    refine stopHtmlFold_pauses _ _ t ?_ hu
    rw [stopWebFold_tracks]
    exact ht
  | false =>
    rw [if_neg (by simp)]
    exact stopHtmlFold_pauses _ _ t ht hu

theorem stopAll_handler_removed (s : EngineState) (t : Track)
    (ht : t ∈ s.tracks) (hu : t.url.isSome = true)
    (hpost : (mget (stopAll s).htmlAudios t.id).isSome = true) :
    t.id ∉ (stopAll s).loopHandlers := by
  rw [stopAll_eq] at hpost ⊢
  cases hw : s.webAudioSupported with
  | true =>
    rw [hw] at hpost
    rw [if_pos rfl] at hpost
    rw [if_pos rfl]
    refine stopHtmlFold_removes_handler _ _ t ?_ hu hpost
    rw [stopWebFold_tracks]
    exact ht
  | false =>
    rw [hw] at hpost
    rw [if_neg (by simp)] at hpost
    rw [if_neg (by simp)]
    exact stopHtmlFold_removes_handler _ _ t ht hu hpost

/-- **C8**: `stopAll` is idempotent and safe when nothing is playing: running
it again produces exactly the same state; it clears `isPlayingAll`, erases the
source ref of every track's Web Audio voice (when the Web Audio graph exists),
pauses and rewinds every mounted fallback element of a url-bearing track and
removes its restart listener; and `stopTrackWebAudio` (per-track stop) applied
twice equals applying it once. -/
theorem stopAll_idempotent_and_stops_everything (s : EngineState) :
    stopAll (stopAll s) = stopAll s ∧
    (stopAll s).isPlayingAll = false ∧
    (s.webAudioSupported = true →
      ∀ t ∈ s.tracks, mget (stopAll s).sources t.id = none) ∧
    (∀ t ∈ s.tracks, t.url.isSome = true →
      ∀ el, mget (stopAll s).htmlAudios t.id = some el →
        el.paused = true ∧ el.currentTime = 0 ∧
        t.id ∉ (stopAll s).loopHandlers) ∧
    (∀ i : Int, stopTrackWebAudio i (stopTrackWebAudio i s) =
      stopTrackWebAudio i s) := by
  refine ⟨?_, stopAll_isPlayingAll s,
    fun hw t ht => stopAll_sources_none s hw t ht,
    fun t ht hu el hel => ⟨(stopAll_pauses s t ht hu el hel).1,
      (stopAll_pauses s t ht hu el hel).2,
      stopAll_handler_removed s t ht hu (by rw [hel]; rfl)⟩,
    fun i => stopTrack_noop i _ (stopTrack_sources_self i s)⟩
  have h1 : ({ stopAll s with isPlayingAll := false } : EngineState) =
      stopAll s := engine_set_isPlayingAll_false _ (stopAll_isPlayingAll s)
  rw [stopAll_eq (stopAll s), h1]
  cases hw : s.webAudioSupported with
  | true =>
    have hUw : (stopAll s).webAudioSupported = true := by
      rw [stopAll_web]
      exact hw
    rw [if_pos hUw]
    have hWF : List.foldl stopWebStep (stopAll s) (stopAll s).tracks =
        stopAll s := by
      refine stopWebFold_id _ _ (fun t ht => ?_)
      refine stopAll_sources_none s hw t ?_
      rw [stopAll_tracks] at ht
      exact ht
    rw [hWF]
    refine stopHtmlFold_id _ _ (fun t ht el hel hu => ?_)
    have ht2 : t ∈ s.tracks := by rw [stopAll_tracks] at ht; exact ht
    exact ⟨(stopAll_pauses s t ht2 hu el hel).1,
      (stopAll_pauses s t ht2 hu el hel).2,
      stopAll_handler_removed s t ht2 hu (by rw [hel]; rfl)⟩
  | false =>
    have hUw : ¬ ((stopAll s).webAudioSupported = true) := by
      rw [stopAll_web, hw]
      simp
    rw [if_neg hUw]
    refine stopHtmlFold_id _ _ (fun t ht el hel hu => ?_)
    have ht2 : t ∈ s.tracks := by rw [stopAll_tracks] at ht; exact ht
    exact ⟨(stopAll_pauses s t ht2 hu el hel).1,
      (stopAll_pauses s t ht2 hu el hel).2,
      stopAll_handler_removed s t ht2 hu (by rw [hel]; rfl)⟩

/-- C8 witness: idempotence on the concrete two-voice playing state. -/
theorem stopAll_idempotent_and_stops_everything_witness :
    stopAll (stopAll wStatePlaying) = stopAll wStatePlaying :=
  (stopAll_idempotent_and_stops_everything wStatePlaying).1
